import Mathlib

/-!
Verification development for `dtcalc`, a command-line date/duration calculator
(single source file `dtcalc.py`).  The Python source is shallowly embedded:
strings are lists of characters (ASCII semantics), `timedelta` values are
total elapsed seconds as `Int`, `datetime` values are seconds since an
arbitrary epoch as `Int`, and the wall clock consulted by the `today` / `now`
keywords is an injected `Clock` record.  Fallible code returns `Except`
(`check_condition` raising `ValueError` becomes `Except.error`), and the
Python truthiness tests that drive control flow (`if dur:`,
`check_condition(result, ...)`) are modelled explicitly.
-/

abbrev Str := List Char

/-- Character class of the regex `\d` on ASCII input (codepoints 48-57). -/
def isDigitC (c : Char) : Bool := decide (48 ≤ c.toNat) && decide (c.toNat ≤ 57)

/-- Character class of the regex `[a-zA-Z]` (codepoints 97-122 and 65-90). -/
def isAlphaC (c : Char) : Bool :=
  (decide (97 ≤ c.toNat) && decide (c.toNat ≤ 122)) ||
  (decide (65 ≤ c.toNat) && decide (c.toNat ≤ 90))

/-- Character class of the regex `\s` on ASCII input: space, tab, newline,
carriage return, vertical tab, form feed. -/
def isSpaceC (c : Char) : Bool :=
  decide (c.toNat = 32) || decide (c.toNat = 9) || decide (c.toNat = 10) ||
  decide (c.toNat = 13) || decide (c.toNat = 11) || decide (c.toNat = 12)

/-- The two operator characters recognised by the tokenizer regex `[+-]`. -/
def isSignC (c : Char) : Bool := decide (c = '+') || decide (c = '-')

/-- Python `str.lower()` on ASCII characters: maps A-Z to a-z. -/
def lowerChar (c : Char) : Char :=
  if 65 ≤ c.toNat ∧ c.toNat ≤ 90 then Char.ofNat (c.toNat + 32) else c

/-- Python `str.lower()` on an ASCII string. -/
def lowerStr (s : Str) : Str := s.map lowerChar

/-- Python `int(value)` on a decimal digit string. -/
def parseNatChars (s : Str) : Nat :=
  s.foldl (fun acc c => 10 * acc + (c.toNat - 48)) 0

/-- The decimal digit characters of `n`, most significant first
(the way Python renders a nonnegative integer). -/
def natChars (n : Nat) : List Char :=
  if h : n < 10 then [Char.ofNat (48 + n)]
  else natChars (n / 10) ++ [Char.ofNat (48 + n % 10)]
  decreasing_by exact Nat.div_lt_self (by omega) (by omega)

/-!
## Duration parsing (`parse_duration`, dtcalc.py lines 38-78)

`re.findall(r"(\d+)\s*([a-zA-Z]+)", s)` scans left to right for
non-overlapping matches of a digit run, optional whitespace, and a letter
run.  For this pattern the character classes are disjoint, so greedy
matching is deterministic: a match starts at a digit position exactly when
the maximal digit run from there, after skipping maximal whitespace, is
followed by at least one letter.
-/

/-- Scanner for `re.findall(r"(\d+)\s*([a-zA-Z]+)", s)`, with a fuel
argument for structural recursion; the fuel is always at least the length
of the string, so the base case `fuel = 0` is never reached on the
wrapper's call. -/
def findallDurFuel : Nat → Str → List (Str × Str)
  | _, [] => []
  | 0, _ :: _ => []
  | fuel + 1, c :: rest =>
    if isDigitC c then
      let ds := c :: rest.takeWhile isDigitC
      let r2 := (rest.dropWhile isDigitC).dropWhile isSpaceC
      let u := r2.takeWhile isAlphaC
      if u = [] then findallDurFuel fuel rest
      else (ds, u) :: findallDurFuel fuel (r2.dropWhile isAlphaC)
    else findallDurFuel fuel rest

/-- Embedding of `re.findall(r"(\d+)\s*([a-zA-Z]+)", s)`: the list of
(number string, unit string) matches, leftmost first. -/
def findallDur (s : Str) : List (Str × Str) := findallDurFuel s.length s

/-- The normalised unit categories of the `unit_map` dict in `parse_duration`
(weeks are folded into days). -/
inductive UnitKey where
  | days | hours | minutes | seconds
  deriving DecidableEq, Repr

/-- Embedding of the `unit_map` dict lookup `unit_map.get(unit.lower())`:
the argument is the already-lowercased unit string. -/
def unit_map (s : Str) : Option UnitKey :=
  if s = ['w'] ∨ s = "week".toList ∨ s = "weeks".toList then some .days
  else if s = ['d'] ∨ s = "day".toList ∨ s = "days".toList then some .days
  else if s = ['h'] ∨ s = "hr".toList ∨ s = "hour".toList ∨ s = "hours".toList then some .hours
  else if s = ['m'] ∨ s = "min".toList ∨ s = "minute".toList ∨ s = "minutes".toList then some .minutes
  else if s = ['s'] ∨ s = "sec".toList ∨ s = "second".toList ∨ s = "seconds".toList then some .seconds
  else none

/-- The `kwargs` dict `{"days": 0, "hours": 0, "minutes": 0, "seconds": 0}`
accumulated by `parse_duration`. -/
structure Kwargs where
  days : Nat
  hours : Nat
  minutes : Nat
  seconds : Nat
  deriving DecidableEq, Repr

/-- The zero-initialised `kwargs` dict. -/
def kwZero : Kwargs := ⟨0, 0, 0, 0⟩

/-- `kwargs[unit_key] += val`. -/
def Kwargs.add (kw : Kwargs) (k : UnitKey) (v : Nat) : Kwargs :=
  match k with
  | .days => { kw with days := kw.days + v }
  | .hours => { kw with hours := kw.hours + v }
  | .minutes => { kw with minutes := kw.minutes + v }
  | .seconds => { kw with seconds := kw.seconds + v }

/-- Read one component of the `kwargs` dict. -/
def Kwargs.get (kw : Kwargs) (k : UnitKey) : Nat :=
  match k with
  | .days => kw.days
  | .hours => kw.hours
  | .minutes => kw.minutes
  | .seconds => kw.seconds

/-- The errors raised by dtcalc: the `ValueError` messages of each
`check_condition` call site, named after the specification's error
taxonomy, plus `Overflow` for Python's `OverflowError`, which `timedelta`
construction and `datetime` arithmetic raise outside their supported
ranges (it is not a `ValueError`, is absent from the specification's
taxonomy, and even escapes the CLI's `except ValueError` handler). -/
inductive Err where
  | UnsupportedUnit : Str → Err
  | UnparseableToken : Str → Err
  | ConsecutiveOperators
  | MissingOperator
  | TrailingOperator
  | NoOperandsFound
  | CannotAddTwoDates
  | CannotSubtractDateFromDuration
  | Overflow
  deriving DecidableEq, Repr

/-- Embedding of the `for value, unit in matches:` loop of `parse_duration`:
looks each unit up in `unit_map` (raising `UnsupportedUnit` on a miss,
naming the unit in its original case), converts the value with `int(...)`,
multiplies week values by 7, and accumulates into `kwargs`. -/
def durationKwargs (kw : Kwargs) : List (Str × Str) → Except Err Kwargs
  | [] => .ok kw
  | (value, unit) :: rest =>
    match unit_map (lowerStr unit) with
    | none => .error (.UnsupportedUnit unit)
    | some key =>
      let val := parseNatChars value
      let val := if key = UnitKey.days ∧ (lowerStr unit).head? = some 'w'
                 then val * 7 else val
      durationKwargs (kw.add key val) rest

/-- Lower bound of `timedelta` in whole seconds: `timedelta.min` is
minus 999,999,999 days (CPython raises `OverflowError` when the
normalized day count goes below that). -/
def tdMin : Int := -999999999 * 86400

/-- Upper bound of `timedelta` in whole seconds: `timedelta.max` is
999,999,999 days, 23:59:59 (and 999999 microseconds, irrelevant at the
whole-second granularity of this model). -/
def tdMax : Int := 999999999 * 86400 + 86399

/-- Whether a total second count is representable as a `timedelta`, i.e.
its floor-division day count stays within ±999,999,999. -/
def tdInRange (t : Int) : Bool := decide (tdMin ≤ t) && decide (t ≤ tdMax)

/-- `timedelta(**kwargs)`: the total number of elapsed seconds, or
Python's `OverflowError` when the normalized day count leaves
±999,999,999 (e.g. `timedelta(days=10**9)` raises). -/
def timedeltaOf (kw : Kwargs) : Except Err Int :=
  let total : Int :=
    ((kw.days * 86400 + kw.hours * 3600 + kw.minutes * 60 + kw.seconds : Nat) : Int)
  if tdInRange total then .ok total else .error .Overflow

/-- Embedding of `parse_duration` (dtcalc.py lines 38-78): `ok none` models
the Python `return None` (token has no numeric-unit pair at all), `error`
models the `ValueError` raised by `check_condition` on an unrecognised
unit or the `OverflowError` raised by `timedelta(**kwargs)`, and
`ok (some td)` is a successfully parsed `timedelta`. -/
def parse_duration (s : Str) : Except Err (Option Int) :=
  let ms := findallDur s
  if ms = [] then .ok none
  else
    match durationKwargs kwZero ms with
    | .error e => .error e
    | .ok kw =>
      match timedeltaOf kw with
      | .error e => .error e
      | .ok td => .ok (some td)

/-- One-character numeric alternative `[lo-hi]` (codepoint bounds),
yielding its digit value. -/
def p1 (lo hi : Nat) (s : Str) : List (Nat × Str) :=
  match s with
  | a :: r =>
    if decide (lo ≤ a.toNat) && decide (a.toNat ≤ hi) then [(a.toNat - 48, r)] else []
  | _ => []

/-- Two-character numeric alternative `[lo1-hi1][lo2-hi2]` (codepoint
bounds), yielding its two-digit value. -/
def p2 (lo1 hi1 lo2 hi2 : Nat) (s : Str) : List (Nat × Str) :=
  match s with
  | a :: b :: r =>
    if decide (lo1 ≤ a.toNat) && decide (a.toNat ≤ hi1) &&
       decide (lo2 ≤ b.toNat) && decide (b.toNat ≤ hi2) then
      [((a.toNat - 48) * 10 + (b.toNat - 48), r)]
    else []
  | _ => []

/-- `%Y`: exactly four digits (`\d\d\d\d`). -/
def pY (s : Str) : List (Nat × Str) :=
  match s with
  | a :: b :: c :: d :: r =>
    if isDigitC a && isDigitC b && isDigitC c && isDigitC d then
      [(((a.toNat - 48) * 10 + (b.toNat - 48)) * 100 +
        ((c.toNat - 48) * 10 + (d.toNat - 48)), r)]
    else []
  | _ => []

/-- `%y`: exactly two digits (`\d\d`), before the century pivot. -/
def py (s : Str) : List (Nat × Str) :=
  match s with
  | a :: b :: r =>
    if isDigitC a && isDigitC b then [((a.toNat - 48) * 10 + (b.toNat - 48), r)] else []
  | _ => []

/-- The century pivot CPython applies to `%y` values: 0-68 is 2000-2068,
69-99 is 1969-1999. -/
def pivotY (yy : Nat) : Nat := if yy ≤ 68 then 2000 + yy else 1900 + yy

/-- `%m`: `1[0-2]|0[1-9]|[1-9]`. -/
def pm (s : Str) : List (Nat × Str) :=
  p2 49 49 48 50 s ++ p2 48 48 49 57 s ++ p1 49 57 s

/-- `%d`: `3[01]|[12]\d|0[1-9]|[1-9]`. -/
def pd (s : Str) : List (Nat × Str) :=
  p2 51 51 48 49 s ++ p2 49 50 48 57 s ++ p2 48 48 49 57 s ++ p1 49 57 s

/-- `%H`: `2[0-3]|[0-1]\d|\d`. -/
def pH (s : Str) : List (Nat × Str) :=
  p2 50 50 48 51 s ++ p2 48 49 48 57 s ++ p1 48 57 s

/-- `%I`: `1[0-2]|0[1-9]|[1-9]`. -/
def pI (s : Str) : List (Nat × Str) :=
  p2 49 49 48 50 s ++ p2 48 48 49 57 s ++ p1 49 57 s

/-- `%M`: `[0-5]\d|\d`. -/
def pM (s : Str) : List (Nat × Str) :=
  p2 48 53 48 57 s ++ p1 48 57 s

/-- `%S`: `6[0-1]|[0-5]\d|\d` (CPython admits leap seconds in the regex;
the `datetime` constructor then rejects them). -/
def pS (s : Str) : List (Nat × Str) :=
  p2 54 54 48 49 s ++ p2 48 53 48 57 s ++ p1 48 57 s

/-- A literal (non-letter) character of the format string. -/
def pLit (ch : Char) (s : Str) : List Str :=
  match s with
  | c :: r => if c = ch then [r] else []
  | _ => []

/-- Whitespace in the format matches `\s+`: consume between one and all of
the leading whitespace characters (every backtracking alternative). -/
def pWS : Str → List Str
  | c :: r => if isSpaceC c then r :: pWS r else []
  | [] => []

/-- `%p`: `AM|PM`, case-insensitively; `true` means PM. -/
def pAMPM (s : Str) : List (Bool × Str) :=
  match s with
  | a :: b :: r =>
    if lowerChar a = 'a' ∧ lowerChar b = 'm' then [(false, r)]
    else if lowerChar a = 'p' ∧ lowerChar b = 'm' then [(true, r)]
    else []
  | _ => []

/-- The full month names matched by `%B` (lowercase; matching is
case-insensitive). -/
def monthFull : List Str :=
  ["january".toList, "february".toList, "march".toList, "april".toList,
   "may".toList, "june".toList, "july".toList, "august".toList,
   "september".toList, "october".toList, "november".toList, "december".toList]

/-- The abbreviated month names matched by `%b`. -/
def monthAbbr : List Str :=
  ["jan".toList, "feb".toList, "mar".toList, "apr".toList, "may".toList,
   "jun".toList, "jul".toList, "aug".toList, "sep".toList, "oct".toList,
   "nov".toList, "dec".toList]

/-- Try each month name as a case-insensitive prefix, yielding the month
number (1-12). -/
def pMonthAux : List Str → Nat → Str → List (Nat × Str)
  | [], _, _ => []
  | n :: ns, i, s =>
    (if lowerStr (s.take n.length) = n ∧ n.length ≤ s.length
     then [(i, s.drop n.length)] else []) ++ pMonthAux ns (i + 1) s

/-- `%B`: a full month name. -/
def pB (s : Str) : List (Nat × Str) := pMonthAux monthFull 1 s

/-- `%b`: an abbreviated month name. -/
def pb (s : Str) : List (Nat × Str) := pMonthAux monthAbbr 1 s

/-- The seven `date_formats` of `parse_datetime_safe`, in source order. -/
inductive DateFmt where
  | iso   -- "%Y-%m-%d"
  | BdY   -- "%B/%d/%Y"
  | Bdy   -- "%B/%d/%y"
  | bdY   -- "%b/%d/%Y"
  | bdy   -- "%b/%d/%y"
  | mdy   -- "%m/%d/%y"
  | mdY   -- "%m/%d/%Y"
  deriving DecidableEq, Repr

/-- The five `time_formats` of `parse_datetime_safe`, in source order. -/
inductive TimeFmt where
  | noTime  -- ""
  | HM      -- "%H:%M"
  | HMS     -- "%H:%M:%S"
  | IMp     -- "%I:%M %p"
  | IMSp    -- "%I:%M:%S %p"
  deriving DecidableEq, Repr

/-- All backtracking parses of a date format: (year, month, day) plus the
unconsumed remainder. -/
def dateParses (df : DateFmt) (s : Str) : List ((Nat × Nat × Nat) × Str) :=
  match df with
  | .iso =>
    (pY s).flatMap fun yr => (pLit '-' yr.2).flatMap fun r1 =>
      (pm r1).flatMap fun mr => (pLit '-' mr.2).flatMap fun r2 =>
        (pd r2).map fun dr => ((yr.1, mr.1, dr.1), dr.2)
  | .BdY =>
    (pB s).flatMap fun mr => (pLit '/' mr.2).flatMap fun r1 =>
      (pd r1).flatMap fun dr => (pLit '/' dr.2).flatMap fun r2 =>
        (pY r2).map fun yr => ((yr.1, mr.1, dr.1), yr.2)
  | .Bdy =>
    (pB s).flatMap fun mr => (pLit '/' mr.2).flatMap fun r1 =>
      (pd r1).flatMap fun dr => (pLit '/' dr.2).flatMap fun r2 =>
        (py r2).map fun yr => ((pivotY yr.1, mr.1, dr.1), yr.2)
  | .bdY =>
    (pb s).flatMap fun mr => (pLit '/' mr.2).flatMap fun r1 =>
      (pd r1).flatMap fun dr => (pLit '/' dr.2).flatMap fun r2 =>
        (pY r2).map fun yr => ((yr.1, mr.1, dr.1), yr.2)
  | .bdy =>
    (pb s).flatMap fun mr => (pLit '/' mr.2).flatMap fun r1 =>
      (pd r1).flatMap fun dr => (pLit '/' dr.2).flatMap fun r2 =>
        (py r2).map fun yr => ((pivotY yr.1, mr.1, dr.1), yr.2)
  | .mdy =>
    (pm s).flatMap fun mr => (pLit '/' mr.2).flatMap fun r1 =>
      (pd r1).flatMap fun dr => (pLit '/' dr.2).flatMap fun r2 =>
        (py r2).map fun yr => ((pivotY yr.1, mr.1, dr.1), yr.2)
  | .mdY =>
    (pm s).flatMap fun mr => (pLit '/' mr.2).flatMap fun r1 =>
      (pd r1).flatMap fun dr => (pLit '/' dr.2).flatMap fun r2 =>
        (pY r2).map fun yr => ((yr.1, mr.1, dr.1), yr.2)

/-- CPython's 12-hour conversion for `%I` with `%p`: 12 AM is hour 0,
12 PM stays 12, other PM hours gain 12. -/
def hour12 (h : Nat) (isPM : Bool) : Nat :=
  if isPM then (if h = 12 then 12 else h + 12)
  else (if h = 12 then 0 else h)

/-- All backtracking parses of a non-empty time suffix: (hour, minute,
second) plus the unconsumed remainder. -/
def timeParses (tf : TimeFmt) (s : Str) : List ((Nat × Nat × Nat) × Str) :=
  match tf with
  | .noTime => [((0, 0, 0), s)]
  | .HM =>
    (pH s).flatMap fun hr => (pLit ':' hr.2).flatMap fun r1 =>
      (pM r1).map fun mr => ((hr.1, mr.1, 0), mr.2)
  | .HMS =>
    (pH s).flatMap fun hr => (pLit ':' hr.2).flatMap fun r1 =>
      (pM r1).flatMap fun mr => (pLit ':' mr.2).flatMap fun r2 =>
        (pS r2).map fun sr => ((hr.1, mr.1, sr.1), sr.2)
  | .IMp =>
    (pI s).flatMap fun hr => (pLit ':' hr.2).flatMap fun r1 =>
      (pM r1).flatMap fun mr => (pWS mr.2).flatMap fun r2 =>
        (pAMPM r2).map fun pr => ((hour12 hr.1 pr.1, mr.1, 0), pr.2)
  | .IMSp =>
    (pI s).flatMap fun hr => (pLit ':' hr.2).flatMap fun r1 =>
      (pM r1).flatMap fun mr => (pLit ':' mr.2).flatMap fun r2 =>
        (pS r2).flatMap fun sr => (pWS sr.2).flatMap fun r3 =>
          (pAMPM r3).map fun pr => ((hour12 hr.1 pr.1, mr.1, sr.1), pr.2)

/-- All backtracking parses of the combined format
`f"{dfmt} {tfmt}".strip()`: for a non-empty time suffix the joining space
matches `\s+`. -/
def comboParses (df : DateFmt) (tf : TimeFmt) (s : Str) :
    List (((Nat × Nat × Nat) × (Nat × Nat × Nat)) × Str) :=
  match tf with
  | .noTime => (dateParses df s).map fun dr => ((dr.1, (0, 0, 0)), dr.2)
  | _ =>
    (dateParses df s).flatMap fun dr => (pWS dr.2).flatMap fun r1 =>
      (timeParses tf r1).map fun tr => ((dr.1, tr.1), tr.2)

/-- Gregorian leap year rule used by `datetime`. -/
def isLeap (y : Nat) : Bool :=
  decide (y % 4 = 0) && (decide (y % 100 ≠ 0) || decide (y % 400 = 0))

/-- Length of a month, as enforced by the `datetime` constructor. -/
def daysInMonth (y m : Nat) : Nat :=
  if m = 2 then (if isLeap y then 29 else 28)
  else if m = 4 ∨ m = 6 ∨ m = 9 ∨ m = 11 then 30
  else 31

/-- The validity conditions the `datetime(...)` constructor adds on top of
the regex (year 1-9999, day within the month, no leap second). -/
def validDT (ymd : Nat × Nat × Nat) (hms : Nat × Nat × Nat) : Bool :=
  decide (1 ≤ ymd.1) && decide (ymd.1 ≤ 9999) &&
  decide (ymd.2.2 ≤ daysInMonth ymd.1 ymd.2.1) && decide (hms.2.2 ≤ 59)

/-- Days between 1970-01-01 and y-m-d in the proleptic Gregorian calendar
(Hinnant's civil-days algorithm; all years here are positive). -/
def daysFromCivil (y m d : Nat) : Int :=
  let yi : Int := (y : Int) - (if m ≤ 2 then 1 else 0)
  let era : Int := yi / 400
  let yoe : Int := yi - era * 400
  let mp : Int := ((m : Int) + 9) % 12
  let doy : Int := (153 * mp + 2) / 5 + (d : Int) - 1
  let doe : Int := yoe * 365 + yoe / 4 - yoe / 100 + doy
  era * 146097 + doe - 719468

/-- A parsed `datetime` value as seconds since the Unix epoch. -/
def toTimestamp (ymd : Nat × Nat × Nat) (hms : Nat × Nat × Nat) : Int :=
  daysFromCivil ymd.1 ymd.2.1 ymd.2.2 * 86400 +
    ((hms.1 * 3600 + hms.2.1 * 60 + hms.2.2 : Nat) : Int)

/-- Lower bound of `datetime` as epoch seconds: `datetime.min` is
0001-01-01 00:00:00. -/
def dtMin : Int := daysFromCivil 1 1 1 * 86400

/-- Upper bound of `datetime` as epoch seconds: `datetime.max` is
9999-12-31 23:59:59 (and 999999 microseconds, irrelevant here). -/
def dtMax : Int := daysFromCivil 9999 12 31 * 86400 + 86399

/-- Whether an epoch-second value is representable as a `datetime`:
CPython raises `OverflowError` when `datetime` ± `timedelta` leaves
years 1-9999. -/
def dtInRange (t : Int) : Bool := decide (dtMin ≤ t) && decide (t ≤ dtMax)

/-- `datetime.strptime(s, combo)` as an `Option`: the first full-length
parse whose fields form a valid date, if any. -/
def comboResult (df : DateFmt) (tf : TimeFmt) (s : Str) : Option Int :=
  (comboParses df tf s).findSome? fun pr =>
    if pr.2 = [] ∧ validDT pr.1.1 pr.1.2 then some (toTimestamp pr.1.1 pr.1.2)
    else none

/-- The 35 (date format, time suffix) combinations, date-format-major, in
the order the two nested loops of `parse_datetime_safe` try them. -/
def combos : List (DateFmt × TimeFmt) :=
  [DateFmt.iso, DateFmt.BdY, DateFmt.Bdy, DateFmt.bdY, DateFmt.bdy,
   DateFmt.mdy, DateFmt.mdY].flatMap fun df =>
    [TimeFmt.noTime, TimeFmt.HM, TimeFmt.HMS, TimeFmt.IMp, TimeFmt.IMSp].map
      fun tf => (df, tf)

/-- The injected wall clock: `datetime.today()` truncated to midnight, and
`datetime.now()` (both as epoch seconds). -/
structure Clock where
  today : Int
  now : Int

/-- Embedding of `parse_datetime_safe` (dtcalc.py lines 84-113): keyword
shortcuts `today` / `now` (case-insensitive), then the 35 format
combinations tried in order; `none` models the Python `return None`. -/
def parse_datetime_safe (clock : Clock) (s : Str) : Option Int :=
  if lowerStr s = "today".toList then some clock.today
  else if lowerStr s = "now".toList then some clock.now
  else combos.findSome? fun c => comboResult c.1 c.2 s

/-- A fixed concrete clock used to instantiate witnesses. -/
def clock0 : Clock := ⟨0, 0⟩

/-- The head of the reversed accumulator is a whitespace character, i.e.
the previously scanned character exists and is whitespace. -/
def headSpace : Str → Bool
  | c :: _ => isSpaceC c
  | [] => false

/-- Scanner for `re.split(r"\s+([+-])", expr)`: `accRev` holds the current
piece in reverse.  A sign preceded by whitespace ends the piece (with the
whitespace run before the sign removed, as the regex consumes it) and is
emitted on its own. -/
def splitSign (accRev : Str) : Str → List Str
  | [] => [accRev.reverse]
  | c :: rest =>
    if isSignC c && headSpace accRev then
      (accRev.dropWhile isSpaceC).reverse :: [c] :: splitSign [] rest
    else splitSign (c :: accRev) rest

/-- `re.split(r"\s+([+-])", expr)`. -/
def re_split (s : Str) : List Str := splitSign [] s

/-- Python `str.strip()`: remove leading and trailing whitespace. -/
def strip (s : Str) : Str :=
  ((s.dropWhile isSpaceC).reverse.dropWhile isSpaceC).reverse

/-- The token list of `evaluate_expression`:
`[s.strip() for s in re.split(r"\s+([+-])", expr) if s.strip()]`. -/
def tokenize (expr : Str) : List Str :=
  ((re_split expr).map strip).filter fun t => !t.isEmpty

/-- The evaluator's result value: a `timedelta` or a `datetime`. -/
inductive Value where
  | dur : Int → Value
  | dt : Int → Value
  deriving DecidableEq, Repr

/-- Python truthiness of the variable `dur` after `dur =
parse_duration(token)`: false for `None` and for `timedelta(0)`. -/
def truthyDur : Option Int → Bool
  | none => false
  | some d => decide (d ≠ 0)

/-- Outcome of one iteration of the `for token in tokens:` loop: either a
raised `ValueError`, or updated values of the `result` and `op`
variables. -/
inductive StepOut where
  | err : Err → StepOut
  | cont : Option Value → Option Str → StepOut
  deriving DecidableEq, Repr

/-- The body of the `for token in tokens:` loop of `evaluate_expression`
(dtcalc.py lines 125-155), for one token, given the current `result` and
`op`. -/
def evalStep (clock : Clock) (result : Option Value) (op : Option Str)
    (token : Str) : StepOut :=
  if token = ['+'] ∨ token = ['-'] then
    match op with
    | some _ => .err .ConsecutiveOperators
    | none => .cont result (some token)
  else
    match parse_duration token with
    | .error e => .err e
    | .ok durOpt =>
      if truthyDur durOpt then
        let d := durOpt.getD 0
        match result with
        | none => .cont (some (.dur d)) op
        | some acc =>
          match op with
          | none => .err .MissingOperator
          | some o =>
            match acc with
            | .dur t =>
              let t2 := if o = ['+'] then t + d else t - d
              if tdInRange t2 then .cont (some (.dur t2)) none
              else .err .Overflow
            | .dt t =>
              let t2 := if o = ['+'] then t + d else t - d
              if dtInRange t2 then .cont (some (.dt t2)) none
              else .err .Overflow
      else
        match parse_datetime_safe clock token with
        | none => .err (.UnparseableToken token)
        | some t =>
          match result with
          | none => .cont (some (.dt t)) op
          | some acc =>
            match op with
            | none => .err .MissingOperator
            | some o =>
              match acc with
              | .dt a =>
                if o = ['-'] then .cont (some (.dur (a - t))) none
                else .err .CannotAddTwoDates
              | .dur dd =>
                if o = ['+'] then
                  if dtInRange (dd + t) then .cont (some (.dt (dd + t))) none
                  else .err .Overflow
                else .err .CannotSubtractDateFromDuration

/-- The `for token in tokens:` loop of `evaluate_expression`, carrying the
`result` and `op` variables; returns their final values or the first
raised error. -/
def evalLoop (clock : Clock) (result : Option Value) (op : Option Str) :
    List Str → Except Err (Option Value × Option Str)
  | [] => .ok (result, op)
  | token :: rest =>
    match evalStep clock result op token with
    | .err e => .error e
    | .cont res' op' => evalLoop clock res' op' rest

/-- The two final `check_condition` calls of `evaluate_expression`
(lines 157-158): a pending operator is `TrailingOperator`; a never-set
result, or a falsy `timedelta(0)` result, is `NoOperandsFound`. -/
def evalFinish : Option Value × Option Str → Except Err Value
  | (result, op) =>
    match op with
    | some _ => .error .TrailingOperator
    | none =>
      match result with
      | none => .error .NoOperandsFound
      | some (.dur t) => if t = 0 then .error .NoOperandsFound else .ok (.dur t)
      | some (.dt t) => .ok (.dt t)

/-- Embedding of `evaluate_expression` (dtcalc.py lines 119-159). -/
def evaluate_expression (clock : Clock) (expr : Str) : Except Err Value :=
  match evalLoop clock none none (tokenize expr) with
  | .error e => .error e
  | .ok st => evalFinish st

/-- One pluralised component, e.g. `f"{n} day{'s' if n != 1 else ''}"`. -/
def pluralPart (n : Nat) (word : String) : String :=
  toString n ++ " " ++ word ++ (if n = 1 then "" else "s")

/-- Embedding of `format_timedelta` (dtcalc.py lines 201-218): `td` is the
total number of elapsed seconds of the `timedelta`. -/
def format_timedelta (td : Int) : String :=
  let days : Int := td.fdiv 86400
  let total_seconds : Int := td
  let r : Nat := (total_seconds.emod 86400).toNat
  let hours : Nat := r / 3600
  let minutes : Nat := r % 3600 / 60
  let seconds : Nat := r % 3600 % 60
  let parts : List String :=
    (if days ≠ 0 then [pluralPart days.natAbs "day"] else []) ++
    (if hours ≠ 0 then [pluralPart hours "hour"] else []) ++
    (if minutes ≠ 0 then [pluralPart minutes "minute"] else []) ++
    (if seconds ≠ 0 then [pluralPart seconds "second"] else [])
  let sign : String := if total_seconds < 0 then "-" else ""
  if parts.isEmpty then "0 seconds" else sign ++ String.intercalate ", " parts

/-- No character of the string is a `+`/`-` immediately preceded by a
whitespace character, given the previous character `prev`. -/
def noWsSignAux (prev : Char) : Str → Bool
  | [] => true
  | c :: r => !(isSpaceC prev && isSignC c) && noWsSignAux c r

/-- No character of the string is a `+`/`-` immediately preceded by a
whitespace character (i.e. the split regex `\s+[+-]` has no match). -/
def noWsSign : Str → Bool
  | [] => true
  | c :: r => noWsSignAux c r

/-- A token rendered as a sequence of (number, unit) pairs, each pair the
decimal digits of the number directly followed by the unit name. -/
def renderPairs : List (Nat × Str) → Str
  | [] => []
  | p :: rest => natChars p.1 ++ p.2 ++ renderPairs rest

/-- The per-normalised-unit sums of a list of (value, unit alias) pairs,
weeks expanded sevenfold into days. -/
def sumKwargs (kw : Kwargs) : List (Nat × Str) → Kwargs
  | [] => kw
  | (n, u) :: rest =>
    match unit_map (lowerStr u) with
    | some k => sumKwargs
        (kw.add k (if k = UnitKey.days ∧ (lowerStr u).head? = some 'w'
                   then n * 7 else n)) rest
    | none => sumKwargs kw rest

lemma findallDurFuel_congr : ∀ (f1 f2 : Nat) (s : Str),
    s.length ≤ f1 → s.length ≤ f2 → findallDurFuel f1 s = findallDurFuel f2 s := by
  intro f1
  induction f1 with
  | zero =>
    intro f2 s h1 _
    have : s = [] := List.length_eq_zero.mp (Nat.le_zero.mp h1)
    subst this
    cases f2 <;> rfl
  | succ f ih =>
    intro f2 s h1 h2
    cases s with
    | nil => cases f2 <;> rfl
    | cons c rest =>
      cases f2 with
      | zero => simp at h2
      | succ g =>
        simp only [findallDurFuel]
        have hr : rest.length ≤ f := by simpa using Nat.lt_succ_iff.mp h1
        have hr2 : rest.length ≤ g := by simpa using Nat.lt_succ_iff.mp h2
        have hd1 : (rest.dropWhile isDigitC).length ≤ rest.length :=
          (List.dropWhile_sublist _).length_le
        have hd2 : ((rest.dropWhile isDigitC).dropWhile isSpaceC).length ≤
            (rest.dropWhile isDigitC).length := (List.dropWhile_sublist _).length_le
        have hd3 : (((rest.dropWhile isDigitC).dropWhile isSpaceC).dropWhile
            isAlphaC).length ≤ ((rest.dropWhile isDigitC).dropWhile isSpaceC).length :=
          (List.dropWhile_sublist _).length_le
        rw [ih g rest hr hr2,
          ih g (((rest.dropWhile isDigitC).dropWhile isSpaceC).dropWhile isAlphaC)
            (by omega) (by omega)]

/-- The defining one-step equation of the findall scanner. -/
lemma findallDur_cons (c : Char) (rest : Str) :
    findallDur (c :: rest) =
      if isDigitC c then
        let r2 := (rest.dropWhile isDigitC).dropWhile isSpaceC
        let u := r2.takeWhile isAlphaC
        if u = [] then findallDur rest
        else (c :: rest.takeWhile isDigitC, u) :: findallDur (r2.dropWhile isAlphaC) else
      findallDur rest := by
  show findallDurFuel (rest.length + 1) (c :: rest) = _
  simp only [findallDurFuel, findallDur]
  have hd1 : (rest.dropWhile isDigitC).length ≤ rest.length :=
    (List.dropWhile_sublist _).length_le
  have hd2 : ((rest.dropWhile isDigitC).dropWhile isSpaceC).length ≤
      (rest.dropWhile isDigitC).length := (List.dropWhile_sublist _).length_le
  have hd3 : (((rest.dropWhile isDigitC).dropWhile isSpaceC).dropWhile
      isAlphaC).length ≤ ((rest.dropWhile isDigitC).dropWhile isSpaceC).length :=
    (List.dropWhile_sublist _).length_le
  rw [findallDurFuel_congr rest.length
      (((rest.dropWhile isDigitC).dropWhile isSpaceC).dropWhile isAlphaC).length
      (((rest.dropWhile isDigitC).dropWhile isSpaceC).dropWhile isAlphaC)
      (by omega) (by omega)]

example : parse_duration "3w4d".toList = .ok (some ((3 * 7 + 4) * 86400)) := by rfl
example : parse_duration "2 hours".toList = .ok (some 7200) := by rfl
example : parse_duration "today".toList = .ok none := by rfl
example : parse_duration "5xyz".toList = .error (.UnsupportedUnit "xyz".toList) := by rfl
example : parse_duration "0d".toList = .ok (some 0) := by rfl
example : parse_duration "1d2h3m4s".toList = .ok (some (86400 + 7200 + 180 + 4)) := by rfl

/-!
## Datetime parsing (`parse_datetime_safe`, dtcalc.py lines 84-113)

`datetime.strptime(s, fmt)` compiles the format into a regex
(`_strptime.TimeRE`) and requires it to match the whole string; whitespace
in the format matches `\s+`, and the numeric directives are the
alternations below (each tried with full backtracking, so we model a
directive as the list of all its possible parses).  A regex match whose
fields form an invalid calendar date (e.g. February 30) raises
`ValueError`, which `parse_datetime_safe` treats as "this format does not
match".  The seven date formats and five time suffixes are tried
date-format-major, exactly in source order.
-/

example : parse_datetime_safe clock0 "2024-01-01".toList =
    some (daysFromCivil 2024 1 1 * 86400) := by rfl
example : parse_datetime_safe clock0 "ToDay".toList = some 0 := by rfl
example : parse_datetime_safe clock0 "0d".toList = none := by rfl
example : (parse_datetime_safe clock0 "2024-01-01 11:30 PM".toList).isSome = true := by rfl
example : parse_datetime_safe clock0 "2023-02-29".toList = none := by rfl
example : (comboResult DateFmt.iso TimeFmt.IMp "2024-01-01 11:30 PM".toList).isSome = true := by
  rfl

/-!
## Tokenizer (`evaluate_expression` line 120)

`re.split(r"\s+([+-])", expr)`: the leftmost match of `\s+[+-]` is the
first `+` or `-` immediately preceded by a whitespace character, and the
match consumes the maximal whitespace run before that sign.  The split
keeps the captured sign between the surrounding pieces.  The pieces are
then stripped and empty ones discarded.
-/

example : tokenize "today + 3d".toList = ["today".toList, "+".toList, "3d".toList] := by rfl
example : tokenize "3d +2d".toList = ["3d".toList, "+".toList, "2d".toList] := by rfl
example : tokenize "3d+ 2d".toList = ["3d+ 2d".toList] := by rfl
example : tokenize "".toList = [] := by rfl

/-!
## Evaluator (`evaluate_expression`, dtcalc.py lines 119-159)

The running result is either a `timedelta` (Duration) or a `datetime`
(Instant).  Python truthiness drives two branches: `if dur:` is false both
for `None` and for `timedelta(0)`, and the final
`check_condition(result, "No operands found")` is false for a
`timedelta(0)` result.
-/

example : evaluate_expression clock0 "3d + 2d".toList = .ok (.dur (5 * 86400)) := by rfl
example : evaluate_expression clock0 "2024-01-01 - 2023-01-01".toList =
    .ok (.dur (365 * 86400)) := by rfl
example : evaluate_expression clock0 "today - today".toList = .error .NoOperandsFound := by rfl
example : evaluate_expression clock0 "3d +".toList = .error .TrailingOperator := by rfl
example : evaluate_expression clock0 "0d".toList =
    .error (.UnparseableToken "0d".toList) := by rfl

/-!
## Formatter (`format_timedelta`, dtcalc.py lines 201-218)

`td.days` is the floor-division day count of the `timedelta` (negative for
negative durations), while `total_seconds % (24 * 3600)` is the
nonnegative Python remainder; both feed the printed components.
-/

example : format_timedelta 0 = "0 seconds" := by rfl
example : format_timedelta (86400 + 7200 + 180 + 4) =
    "1 day, 2 hours, 3 minutes, 4 seconds" := by rfl
example : format_timedelta (-5400) = "-1 day, 22 hours, 30 minutes" := by rfl
example : format_timedelta (-366 * 86400) = "-366 days" := by rfl

/-!
## Character-class and list helper lemmas
-/

lemma digit_not_alpha {c : Char} (h : isDigitC c = true) : isAlphaC c = false := by
  simp only [isDigitC, isAlphaC, Bool.and_eq_true, decide_eq_true_eq] at *
  simp only [Bool.or_eq_false_iff, Bool.and_eq_false_iff, decide_eq_false_iff_not]
  omega

lemma digit_not_space {c : Char} (h : isDigitC c = true) : isSpaceC c = false := by
  simp only [isDigitC, isSpaceC, Bool.and_eq_true, decide_eq_true_eq] at *
  simp only [Bool.or_eq_false_iff, decide_eq_false_iff_not]
  omega

lemma alpha_not_digit {c : Char} (h : isAlphaC c = true) : isDigitC c = false := by
  simp only [isDigitC, isAlphaC, Bool.or_eq_true, Bool.and_eq_true, decide_eq_true_eq] at *
  simp only [Bool.and_eq_false_iff, decide_eq_false_iff_not]
  omega

lemma alpha_not_space {c : Char} (h : isAlphaC c = true) : isSpaceC c = false := by
  simp only [isAlphaC, isSpaceC, Bool.or_eq_true, Bool.and_eq_true, decide_eq_true_eq] at *
  simp only [Bool.or_eq_false_iff, decide_eq_false_iff_not]
  omega

lemma space_not_alpha {c : Char} (h : isSpaceC c = true) : isAlphaC c = false := by
  simp only [isAlphaC, isSpaceC, Bool.or_eq_true, Bool.and_eq_true, decide_eq_true_eq] at *
  simp only [Bool.or_eq_false_iff, Bool.and_eq_false_iff, decide_eq_false_iff_not]
  omega

lemma space_not_digit {c : Char} (h : isSpaceC c = true) : isDigitC c = false := by
  simp only [isDigitC, isSpaceC, Bool.or_eq_true, Bool.and_eq_true, decide_eq_true_eq] at *
  simp only [Bool.and_eq_false_iff, decide_eq_false_iff_not]
  omega

lemma space_not_sign {c : Char} (h : isSpaceC c = true) : isSignC c = false := by
  simp only [isSpaceC, Bool.or_eq_true, decide_eq_true_eq] at h
  simp only [isSignC, Bool.or_eq_false_iff, decide_eq_false_iff_not]
  constructor <;> rintro rfl <;> simp_all

lemma alpha_of_lower {c : Char} (h : isAlphaC (lowerChar c) = true) : isAlphaC c = true := by
  unfold lowerChar at h
  split at h
  · simp only [isAlphaC, Bool.or_eq_true, Bool.and_eq_true, decide_eq_true_eq]
    omega
  · exact h

lemma takeWhile_append_all {p : Char → Bool} {l : Str} (r : Str)
    (h : ∀ c ∈ l, p c = true) : (l ++ r).takeWhile p = l ++ r.takeWhile p := by
  induction l with
  | nil => simp
  | cons c t ih => simp_all [List.takeWhile_cons]

lemma dropWhile_append_all {p : Char → Bool} {l : Str} (r : Str)
    (h : ∀ c ∈ l, p c = true) : (l ++ r).dropWhile p = r.dropWhile p := by
  induction l with
  | nil => simp
  | cons c t ih => simp_all [List.dropWhile_cons]

lemma takeWhile_nil_of_head {p : Char → Bool} {l : Str}
    (h : ∀ c, l.head? = some c → p c = false) : l.takeWhile p = [] := by
  cases l with
  | nil => rfl
  | cons c t => simp [List.takeWhile_cons, h c rfl]

lemma dropWhile_self_of_head {p : Char → Bool} {l : Str}
    (h : ∀ c, l.head? = some c → p c = false) : l.dropWhile p = l := by
  cases l with
  | nil => rfl
  | cons c t => simp [List.dropWhile_cons, h c rfl]

lemma mem_of_dropWhile {p : Char → Bool} {l : Str} {c : Char}
    (h : c ∈ l.dropWhile p) : c ∈ l := (List.dropWhile_sublist p).subset h

/-!
## Lemmas about the findall scanner
-/

/-- A string with no digit before its non-alphabetic tail has no match of
the duration pattern: every match needs a digit followed (through optional
whitespace) by a letter. -/
lemma findallDur_nil_split : ∀ (a b : Str), (∀ c ∈ a, isDigitC c = false) →
    (∀ c ∈ b, isAlphaC c = false) → findallDur (a ++ b) = [] := by
  intro a
  induction a with
  | nil =>
    intro b _ hb
    induction b with
    | nil => rfl
    | cons c t ih =>
      rw [List.nil_append, findallDur_cons]
      have ht : ∀ x ∈ t, isAlphaC x = false := fun x hx => hb x (List.mem_cons_of_mem c hx)
      by_cases hc : isDigitC c
      · simp only [hc, if_true]
        have hu : ((t.dropWhile isDigitC).dropWhile isSpaceC).takeWhile isAlphaC = [] := by
          apply takeWhile_nil_of_head
          intro x hx
          have : x ∈ t := mem_of_dropWhile (List.mem_of_mem_head? hx |> mem_of_dropWhile)
          exact ht x this
        simp only [hu, if_true]
        simpa using ih ht
      · simp only [hc, if_false]
        simpa using ih ht
  | cons c a' ih =>
    intro b ha hb
    rw [List.cons_append, findallDur_cons]
    have hc : isDigitC c = false := ha c (List.mem_cons_self _ _)
    simp only [hc, if_false]
    exact ih b (fun x hx => ha x (List.mem_cons_of_mem c hx)) hb

/-- The scanner on a digit run, optional whitespace, a letter run, and a
remainder not starting with a letter: it emits exactly that pair and
continues on the remainder. -/
lemma findallDur_block {ds w u r : Str} (hds_ne : ds ≠ [])
    (hds : ∀ c ∈ ds, isDigitC c = true) (hw : ∀ c ∈ w, isSpaceC c = true)
    (hu_ne : u ≠ []) (hu : ∀ c ∈ u, isAlphaC c = true)
    (hr : ∀ c, r.head? = some c → isAlphaC c = false) :
    findallDur (ds ++ w ++ u ++ r) = (ds, u) :: findallDur r := by
  cases ds with
  | nil => exact absurd rfl hds_ne
  | cons c ds' =>
    have hc : isDigitC c = true := hds c (List.mem_cons_self _ _)
    have hds' : ∀ x ∈ ds', isDigitC x = true := fun x hx => hds x (List.mem_cons_of_mem c hx)
    have hheadwu : ∀ x, (w ++ u ++ r).head? = some x → isDigitC x = false := by
      intro x hx
      cases w with
      | nil =>
        cases u with
        | nil => exact absurd rfl hu_ne
        | cons cu tu =>
          simp only [List.nil_append, List.cons_append, List.head?_cons,
            Option.some_inj] at hx
          exact alpha_not_digit (hu x (hx ▸ List.mem_cons_self _ _))
      | cons cw tw =>
        simp only [List.cons_append, List.head?_cons, Option.some_inj] at hx
        exact space_not_digit (hw x (hx ▸ List.mem_cons_self _ _))
    have e0 : (c :: ds') ++ w ++ u ++ r = c :: (ds' ++ (w ++ u ++ r)) := by simp
    rw [e0, findallDur_cons]
    simp only [hc, if_true]
    have e1 : (ds' ++ (w ++ u ++ r)).takeWhile isDigitC = ds' := by
      rw [takeWhile_append_all _ hds', takeWhile_nil_of_head hheadwu, List.append_nil]
    have e2 : (ds' ++ (w ++ u ++ r)).dropWhile isDigitC = w ++ u ++ r := by
      rw [dropWhile_append_all _ hds', dropWhile_self_of_head hheadwu]
    have hheadu : ∀ x, (u ++ r).head? = some x → isSpaceC x = false := by
      intro x hx
      cases u with
      | nil => exact absurd rfl hu_ne
      | cons cu tu =>
        simp only [List.cons_append, List.head?_cons, Option.some_inj] at hx
        exact alpha_not_space (hu x (hx ▸ List.mem_cons_self _ _))
    have e3 : (w ++ u ++ r).dropWhile isSpaceC = u ++ r := by
      rw [List.append_assoc, dropWhile_append_all _ hw, dropWhile_self_of_head hheadu]
    have e4 : (u ++ r).takeWhile isAlphaC = u := by
      rw [takeWhile_append_all _ hu, takeWhile_nil_of_head hr, List.append_nil]
    have e5 : (u ++ r).dropWhile isAlphaC = r := by
      rw [dropWhile_append_all _ hu, dropWhile_self_of_head hr]
    rw [e1, e2, e3, e4, e5]
    simp only [hu_ne, if_false]

/-!
## Lemmas about decimal rendering and the unit map
-/

lemma natChars_ne_nil (n : Nat) : natChars n ≠ [] := by
  unfold natChars
  split <;> simp

lemma digitChr_digit {m : Nat} (h : m < 10) : isDigitC (Char.ofNat (48 + m)) = true := by
  interval_cases m <;> decide

lemma digitChr_toNat {m : Nat} (h : m < 10) : (Char.ofNat (48 + m)).toNat = 48 + m := by
  interval_cases m <;> decide

lemma natChars_digits (n : Nat) : ∀ c ∈ natChars n, isDigitC c = true := by
  induction n using natChars.induct with
  | case1 n h =>
    intro c hc
    unfold natChars at hc
    rw [dif_pos h] at hc
    have hc' : c = Char.ofNat (48 + n) := by simpa using hc
    subst hc'
    exact digitChr_digit h
  | case2 n h ih =>
    intro c hc
    unfold natChars at hc
    rw [dif_neg h] at hc
    rcases List.mem_append.mp hc with hc | hc
    · exact ih c hc
    · have hc' : c = Char.ofNat (48 + n % 10) := by simpa using hc
      subst hc'
      exact digitChr_digit (Nat.mod_lt _ (by omega))

lemma parseNatChars_append (l : Str) (c : Char) :
    parseNatChars (l ++ [c]) = 10 * parseNatChars l + (c.toNat - 48) := by
  simp [parseNatChars, List.foldl_append]

lemma parseNatChars_natChars (n : Nat) : parseNatChars (natChars n) = n := by
  induction n using natChars.induct with
  | case1 n h =>
    unfold natChars
    rw [dif_pos h]
    show 10 * 0 + ((Char.ofNat (48 + n)).toNat - 48) = n
    rw [digitChr_toNat h]
    omega
  | case2 n h ih =>
    unfold natChars
    rw [dif_neg h, parseNatChars_append, ih, digitChr_toNat (Nat.mod_lt _ (by omega))]
    omega

lemma unit_map_shape {s : Str} {k : UnitKey} (h : unit_map s = some k) :
    s ≠ [] ∧ ∀ c ∈ s, isAlphaC c = true := by
  unfold unit_map at h
  split_ifs at h with h1 h2 h3 h4 h5
  · rcases h1 with rfl | rfl | rfl <;> exact ⟨by simp, by decide⟩
  · rcases h2 with rfl | rfl | rfl <;> exact ⟨by simp, by decide⟩
  · rcases h3 with rfl | rfl | rfl | rfl <;> exact ⟨by simp, by decide⟩
  · rcases h4 with rfl | rfl | rfl | rfl <;> exact ⟨by simp, by decide⟩
  · rcases h5 with rfl | rfl | rfl | rfl <;> exact ⟨by simp, by decide⟩

lemma lowerStr_shape {s : Str} {k : UnitKey} (h : unit_map (lowerStr s) = some k) :
    s ≠ [] ∧ ∀ c ∈ s, isAlphaC c = true := by
  obtain ⟨hne, halpha⟩ := unit_map_shape h
  constructor
  · intro hs
    subst hs
    exact hne rfl
  · intro c hc
    exact alpha_of_lower (halpha (lowerChar c) (List.mem_map_of_mem _ hc))

/-- The `kwargs` accumulation loop fails on the first unrecognised unit,
naming it. -/
lemma durationKwargs_firstBad : ∀ (ms : List (Str × Str)) (kw : Kwargs),
    (∃ p ∈ ms, unit_map (lowerStr p.2) = none) →
    ∃ p ∈ ms, unit_map (lowerStr p.2) = none ∧
      durationKwargs kw ms = .error (.UnsupportedUnit p.2) := by
  intro ms
  induction ms with
  | nil => rintro kw ⟨p, hp, _⟩; cases hp
  | cons m rest ih =>
    rintro kw ⟨p, hp, hbad⟩
    obtain ⟨value, unit⟩ := m
    by_cases hu : unit_map (lowerStr unit) = none
    · exact ⟨(value, unit), List.mem_cons_self _ _, hu,
        by simp only [durationKwargs, hu]⟩
    · obtain ⟨key, hkey⟩ := Option.ne_none_iff_exists'.mp hu
      have hpmem : p ∈ rest := by
        rcases List.mem_cons.mp hp with rfl | hmem
        · exact absurd hbad hu
        · exact hmem
      obtain ⟨q, hq, hqbad, hqeq⟩ := ih _ ⟨p, hpmem, hbad⟩
      refine ⟨q, List.mem_cons_of_mem _ hq, hqbad, ?_⟩
      simp only [durationKwargs, hkey]
      exact hqeq

/-- The `kwargs` accumulation loop succeeds when every unit is
recognised. -/
lemma durationKwargs_ok : ∀ (ms : List (Str × Str)) (kw : Kwargs),
    (∀ p ∈ ms, (unit_map (lowerStr p.2)).isSome) →
    ∃ kwOut, durationKwargs kw ms = .ok kwOut := by
  intro ms
  induction ms with
  | nil => exact fun kw _ => ⟨kw, rfl⟩
  | cons m rest ih =>
    intro kw hall
    obtain ⟨value, unit⟩ := m
    have := hall (value, unit) (List.mem_cons_self _ _)
    obtain ⟨key, hkey⟩ := Option.isSome_iff_exists.mp this
    obtain ⟨kwOut, hOut⟩ := ih _ (fun p hp => hall p (List.mem_cons_of_mem _ hp))
    refine ⟨kwOut, ?_⟩
    simp only [durationKwargs, hkey]
    exact hOut

/-!
## Lemmas about the split scanner
-/

lemma noWsSign_cons_of_aux {c : Char} {r : Str} (h : noWsSignAux c r = true) :
    noWsSign r = true := by
  cases r with
  | nil => rfl
  | cons c2 t =>
    simp only [noWsSignAux, Bool.and_eq_true] at h
    exact h.2

lemma splitSign_walk : ∀ (x : Str) (acc r : Str),
    (∀ c, x.head? = some c → (isSignC c && headSpace acc) = false) →
    noWsSign x = true →
    splitSign acc (x ++ r) = splitSign (x.reverse ++ acc) r := by
  intro x
  induction x with
  | nil => intro acc r _ _; simp
  | cons c x' ih =>
    intro acc r hb hx
    have hcond : (isSignC c && headSpace acc) = false := hb c rfl
    show splitSign acc (c :: (x' ++ r)) = _
    rw [splitSign, if_neg (by simp [hcond])]
    have hauxtail : noWsSignAux c x' = true := hx
    have hb' : ∀ c', x'.head? = some c' → (isSignC c' && headSpace (c :: acc)) = false := by
      intro c' hc'
      cases x' with
      | nil => cases hc'
      | cons c2 t =>
        simp only [List.head?_cons, Option.some_inj] at hc'
        simp only [noWsSignAux, Bool.and_eq_true, Bool.not_eq_true'] at hauxtail
        rw [← hc']
        show (isSignC c2 && isSpaceC c) = false
        rw [Bool.and_comm]
        exact hauxtail.1
    rw [ih (c :: acc) r hb' (noWsSign_cons_of_aux hauxtail)]
    simp

lemma space_chars_not_sign {w : Str} (hw : ∀ x ∈ w, isSpaceC x = true) :
    ∀ x ∈ w, isSignC x = false := fun x hx => space_not_sign (hw x hx)

lemma noWsSign_of_nosign : ∀ {w : Str}, (∀ x ∈ w, isSignC x = false) → noWsSign w = true := by
  intro w
  induction w with
  | nil => intro _; rfl
  | cons c t ih =>
    intro h
    cases t with
    | nil => rfl
    | cons c2 r =>
      show noWsSignAux c (c2 :: r) = true
      simp only [noWsSignAux, Bool.and_eq_true, Bool.not_eq_true']
      refine ⟨?_, ?_⟩
      · rw [h c2 (List.mem_cons_of_mem _ (List.mem_cons_self _ _)), Bool.and_false]
      · have := ih fun x hx => h x (List.mem_cons_of_mem _ hx)
        exact this

lemma noWsSign_append_nosign : ∀ (a : Str) {w : Str}, noWsSign a = true →
    (∀ x ∈ w, isSignC x = false) → noWsSign (a ++ w) = true := by
  intro a
  induction a with
  | nil => intro w _ hw; exact noWsSign_of_nosign hw
  | cons c a' ih =>
    intro w ha hw
    cases a' with
    | nil =>
      cases w with
      | nil => rfl
      | cons cw wr =>
        show noWsSignAux c (cw :: wr) = true
        simp only [noWsSignAux, Bool.and_eq_true, Bool.not_eq_true']
        refine ⟨by rw [hw cw (List.mem_cons_self _ _), Bool.and_false], ?_⟩
        have : noWsSign (cw :: wr) = true :=
          noWsSign_of_nosign hw
        exact this
    | cons c2 r =>
      have ha' : noWsSignAux c (c2 :: r) = true := ha
      simp only [noWsSignAux, Bool.and_eq_true, Bool.not_eq_true'] at ha'
      show noWsSignAux c ((c2 :: r) ++ w) = true
      simp only [List.cons_append, noWsSignAux, Bool.and_eq_true, Bool.not_eq_true']
      refine ⟨ha'.1, ?_⟩
      have := ih (noWsSign_cons_of_aux (show noWsSignAux c (c2 :: r) = true from ha)) hw
      exact this

/-- Clause 1: a string in which no sign is preceded by whitespace is not
split at all. -/
lemma re_split_nosplit {s : Str} (h : noWsSign s = true) : re_split s = [s] := by
  unfold re_split
  calc splitSign [] s = splitSign [] (s ++ []) := by simp
    _ = splitSign (s.reverse ++ []) [] :=
        splitSign_walk s [] [] (fun c _ => by simp [headSpace]) h
    _ = [s] := by simp [splitSign]

/-- Clause 2: the first sign preceded by whitespace is split out as its own
piece, with the whitespace run before it removed from the preceding
piece. -/
lemma re_split_split {a w b : Str} {c : Char} (ha : noWsSign a = true)
    (hlast : ∀ x, a.getLast? = some x → isSpaceC x = false)
    (hw : ∀ x ∈ w, isSpaceC x = true) (hwne : w ≠ []) (hc : isSignC c = true) :
    re_split (a ++ w ++ c :: b) = a :: [c] :: re_split b := by
  unfold re_split
  have haw : noWsSign (a ++ w) = true :=
    noWsSign_append_nosign a ha (space_chars_not_sign hw)
  rw [splitSign_walk (a ++ w) [] (c :: b) ?_ haw]
  · obtain ⟨cw, twr, hwr⟩ : ∃ cw twr, w.reverse = cw :: twr := by
      cases hwr : w.reverse with
      | nil => exact absurd (by simpa using hwr) hwne
      | cons cw twr => exact ⟨cw, twr, rfl⟩
    have hcw : cw ∈ w := by
      have : cw ∈ w.reverse := by rw [hwr]; exact List.mem_cons_self _ _
      simpa using this
    have hhead : headSpace (List.reverse w ++ List.reverse a) = true := by
      rw [hwr]
      simp [headSpace, hw cw hcw]
    rw [splitSign, if_pos (by simp [hc, hhead])]
    congr 1
    rw [List.append_nil, List.reverse_append]
    rw [dropWhile_append_all _ (by intro x hx; exact hw x (by simpa using hx))]
    have : a.reverse.dropWhile isSpaceC = a.reverse := by
      apply dropWhile_self_of_head
      intro x hx
      rw [List.head?_reverse] at hx
      exact hlast x hx
    rw [this, List.reverse_reverse]
  · intro x _
    simp [headSpace]

/-!
## Shape lemmas for the datetime field parsers

Every parse of a date/time directive splits the input into the consumed
characters and the remainder; for the claims we track which character
classes the consumed part can contain.
-/

lemma p1_shape {lo hi : Nat} {s r : Str} {v : Nat} (hlo : 48 ≤ lo) (hhi : hi ≤ 57)
    (h : (v, r) ∈ p1 lo hi s) : ∃ ds, s = ds ++ r ∧ ∀ c ∈ ds, isDigitC c = true := by
  cases s with
  | nil => cases h
  | cons a t =>
    simp only [p1] at h
    by_cases hcond : (decide (lo ≤ a.toNat) && decide (a.toNat ≤ hi)) = true
    · rw [if_pos hcond] at h
      simp only [List.mem_singleton, Prod.mk.injEq] at h
      obtain ⟨-, rfl⟩ := h
      refine ⟨[a], rfl, ?_⟩
      intro c hc
      simp only [List.mem_singleton] at hc
      subst hc
      simp only [Bool.and_eq_true, decide_eq_true_eq] at hcond
      simp only [isDigitC, Bool.and_eq_true, decide_eq_true_eq]
      omega
    · rw [if_neg hcond] at h
      cases h

lemma p2_shape {lo1 hi1 lo2 hi2 : Nat} {s r : Str} {v : Nat}
    (hlo1 : 48 ≤ lo1) (hhi1 : hi1 ≤ 57) (hlo2 : 48 ≤ lo2) (hhi2 : hi2 ≤ 57)
    (h : (v, r) ∈ p2 lo1 hi1 lo2 hi2 s) :
    ∃ ds, s = ds ++ r ∧ ∀ c ∈ ds, isDigitC c = true := by
  cases s with
  | nil => cases h
  | cons a t =>
    cases t with
    | nil => cases h
    | cons b t' =>
      simp only [p2] at h
      by_cases hcond : (decide (lo1 ≤ a.toNat) && decide (a.toNat ≤ hi1) &&
          decide (lo2 ≤ b.toNat) && decide (b.toNat ≤ hi2)) = true
      · rw [if_pos hcond] at h
        simp only [List.mem_singleton, Prod.mk.injEq] at h
        obtain ⟨-, rfl⟩ := h
        refine ⟨[a, b], rfl, ?_⟩
        intro c hc
        simp only [Bool.and_eq_true, decide_eq_true_eq] at hcond
        simp only [List.mem_cons, List.not_mem_nil, or_false] at hc
        rcases hc with rfl | rfl
        · simp only [isDigitC, Bool.and_eq_true, decide_eq_true_eq]; omega
        · simp only [isDigitC, Bool.and_eq_true, decide_eq_true_eq]; omega
      · rw [if_neg hcond] at h
        cases h

lemma pY_shape {s r : Str} {v : Nat} (h : (v, r) ∈ pY s) :
    ∃ ds, s = ds ++ r ∧ ∀ c ∈ ds, isDigitC c = true := by
  cases s with
  | nil => cases h
  | cons a t =>
    cases t with
    | nil => cases h
    | cons b t2 =>
      cases t2 with
      | nil => cases h
      | cons c t3 =>
        cases t3 with
        | nil => cases h
        | cons d t4 =>
          simp only [pY] at h
          by_cases hcond : (isDigitC a && isDigitC b && isDigitC c && isDigitC d) = true
          · rw [if_pos hcond] at h
            simp only [List.mem_singleton, Prod.mk.injEq] at h
            obtain ⟨-, rfl⟩ := h
            simp only [Bool.and_eq_true] at hcond
            refine ⟨[a, b, c, d], rfl, ?_⟩
            intro x hx
            simp only [List.mem_cons, List.not_mem_nil, or_false] at hx
            rcases hx with rfl | rfl | rfl | rfl
            · exact hcond.1.1.1
            · exact hcond.1.1.2
            · exact hcond.1.2
            · exact hcond.2
          · rw [if_neg hcond] at h
            cases h

lemma py_shape {s r : Str} {v : Nat} (h : (v, r) ∈ py s) :
    ∃ ds, s = ds ++ r ∧ ∀ c ∈ ds, isDigitC c = true := by
  cases s with
  | nil => cases h
  | cons a t =>
    cases t with
    | nil => cases h
    | cons b t2 =>
      simp only [py] at h
      by_cases hcond : (isDigitC a && isDigitC b) = true
      · rw [if_pos hcond] at h
        simp only [List.mem_singleton, Prod.mk.injEq] at h
        obtain ⟨-, rfl⟩ := h
        simp only [Bool.and_eq_true] at hcond
        refine ⟨[a, b], rfl, ?_⟩
        intro x hx
        simp only [List.mem_cons, List.not_mem_nil, or_false] at hx
        rcases hx with rfl | rfl
        · exact hcond.1
        · exact hcond.2
      · rw [if_neg hcond] at h
        cases h

lemma pm_shape {s r : Str} {v : Nat} (h : (v, r) ∈ pm s) :
    ∃ ds, s = ds ++ r ∧ ∀ c ∈ ds, isDigitC c = true := by
  unfold pm at h
  rcases List.mem_append.mp h with h | h
  · rcases List.mem_append.mp h with h | h
    · refine p2_shape ?_ ?_ ?_ ?_ h <;> omega
    · refine p2_shape ?_ ?_ ?_ ?_ h <;> omega
  · refine p1_shape ?_ ?_ h <;> omega

lemma pd_shape {s r : Str} {v : Nat} (h : (v, r) ∈ pd s) :
    ∃ ds, s = ds ++ r ∧ ∀ c ∈ ds, isDigitC c = true := by
  unfold pd at h
  rcases List.mem_append.mp h with h | h
  · rcases List.mem_append.mp h with h | h
    · rcases List.mem_append.mp h with h | h
      · refine p2_shape ?_ ?_ ?_ ?_ h <;> omega
      · refine p2_shape ?_ ?_ ?_ ?_ h <;> omega
    · refine p2_shape ?_ ?_ ?_ ?_ h <;> omega
  · refine p1_shape ?_ ?_ h <;> omega

lemma pH_shape {s r : Str} {v : Nat} (h : (v, r) ∈ pH s) :
    ∃ ds, s = ds ++ r ∧ ∀ c ∈ ds, isDigitC c = true := by
  unfold pH at h
  rcases List.mem_append.mp h with h | h
  · rcases List.mem_append.mp h with h | h
    · refine p2_shape ?_ ?_ ?_ ?_ h <;> omega
    · refine p2_shape ?_ ?_ ?_ ?_ h <;> omega
  · refine p1_shape ?_ ?_ h <;> omega

lemma pM_shape {s r : Str} {v : Nat} (h : (v, r) ∈ pM s) :
    ∃ ds, s = ds ++ r ∧ ∀ c ∈ ds, isDigitC c = true := by
  unfold pM at h
  rcases List.mem_append.mp h with h | h
  · refine p2_shape ?_ ?_ ?_ ?_ h <;> omega
  · refine p1_shape ?_ ?_ h <;> omega

lemma pS_shape {s r : Str} {v : Nat} (h : (v, r) ∈ pS s) :
    ∃ ds, s = ds ++ r ∧ ∀ c ∈ ds, isDigitC c = true := by
  unfold pS at h
  rcases List.mem_append.mp h with h | h
  · rcases List.mem_append.mp h with h | h
    · refine p2_shape ?_ ?_ ?_ ?_ h <;> omega
    · refine p2_shape ?_ ?_ ?_ ?_ h <;> omega
  · refine p1_shape ?_ ?_ h <;> omega

lemma pLit_shape {ch : Char} {s r : Str} (h : r ∈ pLit ch s) : s = ch :: r := by
  cases s with
  | nil => cases h
  | cons c t =>
    simp only [pLit] at h
    by_cases hc : c = ch
    · rw [if_pos hc] at h
      simp only [List.mem_singleton] at h
      rw [hc, h]
    · rw [if_neg hc] at h
      cases h

lemma pWS_shape : ∀ {s r : Str}, r ∈ pWS s →
    ∃ ws, s = ws ++ r ∧ ws ≠ [] ∧ ∀ c ∈ ws, isSpaceC c = true := by
  intro s
  induction s with
  | nil => intro r h; cases h
  | cons c t ih =>
    intro r h
    unfold pWS at h
    by_cases hc : isSpaceC c = true
    · rw [if_pos hc] at h
      rcases List.mem_cons.mp h with rfl | h
      · exact ⟨[c], rfl, by simp, by simpa using hc⟩
      · obtain ⟨ws, rfl, hne, hws⟩ := ih h
        refine ⟨c :: ws, rfl, by simp, ?_⟩
        intro x hx
        rcases List.mem_cons.mp hx with rfl | hx
        · exact hc
        · exact hws x hx
    · rw [if_neg hc] at h
      cases h

lemma pMonthAux_shape : ∀ (names : List Str) (i : Nat) {s r : Str} {v : Nat},
    (∀ nm ∈ names, ∀ c ∈ nm, isAlphaC c = true) →
    (v, r) ∈ pMonthAux names i s →
    ∃ a, s = a ++ r ∧ ∀ c ∈ a, isAlphaC c = true := by
  intro names
  induction names with
  | nil => intro i s r v _ h; cases h
  | cons nm ns ih =>
    intro i s r v hall h
    unfold pMonthAux at h
    rcases List.mem_append.mp h with h | h
    · by_cases hcond : (lowerStr (s.take nm.length) = nm ∧ nm.length ≤ s.length)
      · rw [if_pos hcond] at h
        simp only [List.mem_singleton, Prod.mk.injEq] at h
        obtain ⟨-, rfl⟩ := h
        refine ⟨s.take nm.length, (List.take_append_drop _ s).symm, ?_⟩
        intro c hc
        have hlc : lowerChar c ∈ nm := by
          rw [← hcond.1]
          exact List.mem_map_of_mem _ hc
        exact alpha_of_lower (hall nm (List.mem_cons_self _ _) (lowerChar c) hlc)
      · rw [if_neg hcond] at h
        cases h
    · exact ih (i + 1) (fun x hx => hall x (List.mem_cons_of_mem _ hx)) h

lemma monthFull_alpha : ∀ nm ∈ monthFull, ∀ c ∈ nm, isAlphaC c = true := by decide

lemma monthAbbr_alpha : ∀ nm ∈ monthAbbr, ∀ c ∈ nm, isAlphaC c = true := by decide

lemma pB_shape {s r : Str} {v : Nat} (h : (v, r) ∈ pB s) :
    ∃ a, s = a ++ r ∧ ∀ c ∈ a, isAlphaC c = true :=
  pMonthAux_shape monthFull 1 monthFull_alpha h

lemma pb_shape {s r : Str} {v : Nat} (h : (v, r) ∈ pb s) :
    ∃ a, s = a ++ r ∧ ∀ c ∈ a, isAlphaC c = true :=
  pMonthAux_shape monthAbbr 1 monthAbbr_alpha h

/-!
## Consumed-character structure of whole formats

A date format consumes a possibly-empty digit-free part (the month name)
followed by a letter-free part; a time suffix without `%p` consumes only
letter-free characters.  Hence a token that fully matches such a
combination has no letter after any digit, and the duration findall
pattern cannot match anywhere in it.
-/

lemma forall_false_append {p : Char → Bool} {l1 l2 : Str}
    (h1 : ∀ c ∈ l1, p c = false) (h2 : ∀ c ∈ l2, p c = false) :
    ∀ c ∈ l1 ++ l2, p c = false := by
  intro c hc
  rcases List.mem_append.mp hc with hc | hc
  · exact h1 c hc
  · exact h2 c hc

lemma forall_false_cons {p : Char → Bool} {x : Char} {l : Str}
    (h1 : p x = false) (h2 : ∀ c ∈ l, p c = false) :
    ∀ c ∈ x :: l, p c = false := by
  intro c hc
  rcases List.mem_cons.mp hc with rfl | hc
  · exact h1
  · exact h2 c hc

lemma digits_not_alpha {l : Str} (h : ∀ c ∈ l, isDigitC c = true) :
    ∀ c ∈ l, isAlphaC c = false := fun c hc => digit_not_alpha (h c hc)

lemma pB_shape2 {s r : Str} {v : Nat} (h : (v, r) ∈ pB s) :
    ∃ a b, s = a ++ b ++ r ∧ (∀ c ∈ a, isDigitC c = false) ∧
      (∀ c ∈ b, isAlphaC c = false) := by
  obtain ⟨a, rfl, ha⟩ := pB_shape h
  exact ⟨a, [], by simp, fun c hc => alpha_not_digit (ha c hc), by simp⟩

lemma pb_shape2 {s r : Str} {v : Nat} (h : (v, r) ∈ pb s) :
    ∃ a b, s = a ++ b ++ r ∧ (∀ c ∈ a, isDigitC c = false) ∧
      (∀ c ∈ b, isAlphaC c = false) := by
  obtain ⟨a, rfl, ha⟩ := pb_shape h
  exact ⟨a, [], by simp, fun c hc => alpha_not_digit (ha c hc), by simp⟩

lemma pm_shape2 {s r : Str} {v : Nat} (h : (v, r) ∈ pm s) :
    ∃ a b, s = a ++ b ++ r ∧ (∀ c ∈ a, isDigitC c = false) ∧
      (∀ c ∈ b, isAlphaC c = false) := by
  obtain ⟨ds, rfl, hds⟩ := pm_shape h
  exact ⟨[], ds, by simp, by simp, digits_not_alpha hds⟩

lemma slashDate_shape {pMon pYr : Str → List (Nat × Str)}
    (g : Nat → Nat → Nat → Nat × Nat × Nat)
    (hMon : ∀ {s r : Str} {v : Nat}, (v, r) ∈ pMon s →
      ∃ a b, s = a ++ b ++ r ∧ (∀ c ∈ a, isDigitC c = false) ∧
        (∀ c ∈ b, isAlphaC c = false))
    (hYr : ∀ {s r : Str} {v : Nat}, (v, r) ∈ pYr s →
      ∃ ds, s = ds ++ r ∧ ∀ c ∈ ds, isDigitC c = true)
    {s r : Str} {v : Nat × Nat × Nat}
    (h : (v, r) ∈ (pMon s).flatMap fun mr => (pLit '/' mr.2).flatMap fun r1 =>
      (pd r1).flatMap fun dr => (pLit '/' dr.2).flatMap fun r2 =>
        (pYr r2).map fun yr => (g yr.1 mr.1 dr.1, yr.2)) :
    ∃ a b, s = a ++ b ++ r ∧ (∀ c ∈ a, isDigitC c = false) ∧
      (∀ c ∈ b, isAlphaC c = false) := by
  simp only [List.mem_flatMap, List.mem_map] at h
  obtain ⟨⟨mv, mrest⟩, hmr, r1, hl1, ⟨dv, drest⟩, hdr, r2, hl2, ⟨yv, yrest⟩, hyr, heq⟩ := h
  simp only [Prod.mk.injEq] at heq
  obtain ⟨-, rfl⟩ := heq
  obtain ⟨am, bm, hs, ham, hbm⟩ := hMon hmr
  have hm1 : mrest = '/' :: r1 := pLit_shape hl1
  obtain ⟨dsd, hr1, hdsd⟩ := pd_shape hdr
  have hm2 : drest = '/' :: r2 := pLit_shape hl2
  obtain ⟨dsy, hr2, hdsy⟩ := hYr hyr
  subst hm1 hr1 hm2 hr2 hs
  refine ⟨am, bm ++ ('/' :: dsd) ++ ('/' :: dsy), by simp, ham, ?_⟩
  exact forall_false_append (forall_false_append hbm
      (forall_false_cons (by decide) (digits_not_alpha hdsd)))
    (forall_false_cons (by decide) (digits_not_alpha hdsy))

lemma dateParses_shape : ∀ (df : DateFmt) {s r : Str} {v : Nat × Nat × Nat},
    (v, r) ∈ dateParses df s →
    ∃ a b, s = a ++ b ++ r ∧ (∀ c ∈ a, isDigitC c = false) ∧
      (∀ c ∈ b, isAlphaC c = false) := by
  intro df s r v h
  cases df with
  | iso =>
    simp only [dateParses, List.mem_flatMap, List.mem_map] at h
    obtain ⟨⟨yv, yrest⟩, hyr, r1, hl1, ⟨mv, mrest⟩, hmr, r2, hl2, ⟨dv, drest⟩, hdr, heq⟩ := h
    simp only [Prod.mk.injEq] at heq
    obtain ⟨-, rfl⟩ := heq
    obtain ⟨dsy, hsy, hdsy⟩ := pY_shape hyr
    have hy1 : yrest = '-' :: r1 := pLit_shape hl1
    obtain ⟨dsm, hr1, hdsm⟩ := pm_shape hmr
    have hy2 : mrest = '-' :: r2 := pLit_shape hl2
    obtain ⟨dsd, hr2, hdsd⟩ := pd_shape hdr
    subst hy1 hr1 hy2 hr2 hsy
    refine ⟨[], dsy ++ ('-' :: dsm) ++ ('-' :: dsd), by simp, by simp, ?_⟩
    exact forall_false_append (forall_false_append (digits_not_alpha hdsy)
        (forall_false_cons (by decide) (digits_not_alpha hdsm)))
      (forall_false_cons (by decide) (digits_not_alpha hdsd))
  | BdY =>
    simp only [dateParses] at h
    exact slashDate_shape (fun yv mv dv => (yv, mv, dv)) pB_shape2 pY_shape h
  | Bdy =>
    simp only [dateParses] at h
    exact slashDate_shape (fun yv mv dv => (pivotY yv, mv, dv)) pB_shape2 py_shape h
  | bdY =>
    simp only [dateParses] at h
    exact slashDate_shape (fun yv mv dv => (yv, mv, dv)) pb_shape2 pY_shape h
  | bdy =>
    simp only [dateParses] at h
    exact slashDate_shape (fun yv mv dv => (pivotY yv, mv, dv)) pb_shape2 py_shape h
  | mdy =>
    simp only [dateParses] at h
    exact slashDate_shape (fun yv mv dv => (pivotY yv, mv, dv)) pm_shape2 py_shape h
  | mdY =>
    simp only [dateParses] at h
    exact slashDate_shape (fun yv mv dv => (yv, mv, dv)) pm_shape2 pY_shape h

lemma timeParses_shape {tf : TimeFmt} (h1 : tf ≠ .IMp) (h2 : tf ≠ .IMSp)
    {s r : Str} {v : Nat × Nat × Nat} (h : (v, r) ∈ timeParses tf s) :
    ∃ tb, s = tb ++ r ∧ ∀ c ∈ tb, isAlphaC c = false := by
  cases tf with
  | IMp => exact absurd rfl h1
  | IMSp => exact absurd rfl h2
  | noTime =>
    simp only [timeParses, List.mem_singleton, Prod.mk.injEq] at h
    obtain ⟨-, rfl⟩ := h
    exact ⟨[], by simp, by simp⟩
  | HM =>
    simp only [timeParses, List.mem_flatMap, List.mem_map] at h
    obtain ⟨⟨hv, hrest⟩, hhr, r1, hl1, ⟨mv, mrest⟩, hmr, heq⟩ := h
    simp only [Prod.mk.injEq] at heq
    obtain ⟨-, rfl⟩ := heq
    obtain ⟨dsh, hsh, hdsh⟩ := pH_shape hhr
    have hc1 : hrest = ':' :: r1 := pLit_shape hl1
    obtain ⟨dsm, hr1, hdsm⟩ := pM_shape hmr
    subst hc1 hr1 hsh
    refine ⟨dsh ++ (':' :: dsm), by simp, ?_⟩
    exact forall_false_append (digits_not_alpha hdsh)
      (forall_false_cons (by decide) (digits_not_alpha hdsm))
  | HMS =>
    simp only [timeParses, List.mem_flatMap, List.mem_map] at h
    obtain ⟨⟨hv, hrest⟩, hhr, r1, hl1, ⟨mv, mrest⟩, hmr, r2, hl2, ⟨sv, srest⟩, hsr, heq⟩ := h
    simp only [Prod.mk.injEq] at heq
    obtain ⟨-, rfl⟩ := heq
    obtain ⟨dsh, hsh, hdsh⟩ := pH_shape hhr
    have hc1 : hrest = ':' :: r1 := pLit_shape hl1
    obtain ⟨dsm, hr1, hdsm⟩ := pM_shape hmr
    have hc2 : mrest = ':' :: r2 := pLit_shape hl2
    obtain ⟨dss, hr2, hdss⟩ := pS_shape hsr
    subst hc1 hr1 hc2 hr2 hsh
    refine ⟨dsh ++ (':' :: dsm) ++ (':' :: dss), by simp, ?_⟩
    exact forall_false_append (forall_false_append (digits_not_alpha hdsh)
        (forall_false_cons (by decide) (digits_not_alpha hdsm)))
      (forall_false_cons (by decide) (digits_not_alpha hdss))

/-- A token that fully matches a non-AM/PM format combination splits into a
digit-free prefix and a letter-free suffix. -/
lemma comboParses_shape {df : DateFmt} {tf : TimeFmt} (h1 : tf ≠ .IMp)
    (h2 : tf ≠ .IMSp) {tok : Str} {pr : ((Nat × Nat × Nat) × (Nat × Nat × Nat)) × Str}
    (hpr : pr ∈ comboParses df tf tok) (hfull : pr.2 = []) :
    ∃ a b, tok = a ++ b ∧ (∀ c ∈ a, isDigitC c = false) ∧
      (∀ c ∈ b, isAlphaC c = false) := by
  cases tf with
  | IMp => exact absurd rfl h1
  | IMSp => exact absurd rfl h2
  | noTime =>
    simp only [comboParses, List.mem_map] at hpr
    obtain ⟨⟨dv, drest⟩, hdr, heq⟩ := hpr
    have hr : drest = pr.2 := by rw [← heq]
    rw [hfull] at hr
    subst hr
    obtain ⟨a, b, hs, ha, hb⟩ := dateParses_shape df hdr
    exact ⟨a, b, by simpa using hs, ha, hb⟩
  | HM =>
    simp only [comboParses, List.mem_flatMap, List.mem_map] at hpr
    obtain ⟨⟨dv, drest⟩, hdr, r1, hws, ⟨tv, trest⟩, htr, heq⟩ := hpr
    have hr : trest = pr.2 := by rw [← heq]
    rw [hfull] at hr
    subst hr
    obtain ⟨a, b, hs, ha, hb⟩ := dateParses_shape df hdr
    obtain ⟨ws, hdrest, hwsne, hws2⟩ := pWS_shape hws
    obtain ⟨tb, hr1, htb⟩ := timeParses_shape (by simp) (by simp) htr
    subst hdrest hr1 hs
    refine ⟨a, b ++ ws ++ tb, by simp, ha, ?_⟩
    exact forall_false_append (forall_false_append hb
      (fun c hc => space_not_alpha (hws2 c hc))) htb
  | HMS =>
    simp only [comboParses, List.mem_flatMap, List.mem_map] at hpr
    obtain ⟨⟨dv, drest⟩, hdr, r1, hws, ⟨tv, trest⟩, htr, heq⟩ := hpr
    have hr : trest = pr.2 := by rw [← heq]
    rw [hfull] at hr
    subst hr
    obtain ⟨a, b, hs, ha, hb⟩ := dateParses_shape df hdr
    obtain ⟨ws, hdrest, hwsne, hws2⟩ := pWS_shape hws
    obtain ⟨tb, hr1, htb⟩ := timeParses_shape (by simp) (by simp) htr
    subst hdrest hr1 hs
    refine ⟨a, b ++ ws ++ tb, by simp, ha, ?_⟩
    exact forall_false_append (forall_false_append hb
      (fun c hc => space_not_alpha (hws2 c hc))) htb

/-!
## findSome? helpers
-/

lemma exists_of_findSome?_isSome {α β : Type} {f : α → Option β} :
    ∀ {l : List α}, (l.findSome? f).isSome = true → ∃ x ∈ l, (f x).isSome = true := by
  intro l
  induction l with
  | nil => intro h; simp [List.findSome?] at h
  | cons a t ih =>
    intro h
    rw [List.findSome?] at h
    cases hf : f a with
    | some b => exact ⟨a, List.mem_cons_self _ _, by simp [hf]⟩
    | none =>
      rw [hf] at h
      obtain ⟨x, hx, hfx⟩ := ih h
      exact ⟨x, List.mem_cons_of_mem _ hx, hfx⟩

lemma findSome?_isSome_of_mem {α β : Type} {f : α → Option β} :
    ∀ {l : List α} {x : α}, x ∈ l → (f x).isSome = true →
      (l.findSome? f).isSome = true := by
  intro l
  induction l with
  | nil => intro x hx _; cases hx
  | cons a t ih =>
    intro x hx hfx
    rw [List.findSome?]
    cases hf : f a with
    | some b => simp
    | none =>
      show (List.findSome? f t).isSome = true
      rcases List.mem_cons.mp hx with rfl | hx2
      · rw [hf] at hfx; cases hfx
      · exact ih hx2 hfx

/-!
## Support for the duration-parser claims
-/

lemma combos_mem (df : DateFmt) (tf : TimeFmt) : (df, tf) ∈ combos := by
  cases df <;> cases tf <;> decide

lemma parse_duration_ok_none {tok : Str} (h : findallDur tok = []) :
    parse_duration tok = .ok none := by
  unfold parse_duration
  rw [h]
  rfl

lemma renderPairs_head_digit (ps : List (Nat × Str)) :
    ∀ c, (renderPairs ps).head? = some c → isAlphaC c = false := by
  cases ps with
  | nil => intro c hc; cases hc
  | cons q qs =>
    intro c hc
    obtain ⟨c0, t, hnc⟩ := List.exists_cons_of_ne_nil (natChars_ne_nil q.1)
    rw [renderPairs, hnc] at hc
    simp only [List.cons_append, List.head?_cons, Option.some_inj] at hc
    rw [← hc]
    have hmem : c0 ∈ natChars q.1 := by
      rw [hnc]
      exact List.mem_cons_self _ _
    exact digit_not_alpha (natChars_digits q.1 c0 hmem)

lemma findallDur_renderPairs : ∀ ps : List (Nat × Str),
    (∀ p ∈ ps, (unit_map (lowerStr p.2)).isSome = true) →
    findallDur (renderPairs ps) = ps.map fun p => (natChars p.1, p.2) := by
  intro ps
  induction ps with
  | nil => intro _; rfl
  | cons q qs ih =>
    intro hall
    obtain ⟨n, u⟩ := q
    have hk := hall (n, u) (List.mem_cons_self _ _)
    obtain ⟨key, hkey⟩ := Option.isSome_iff_exists.mp hk
    obtain ⟨hune, hualpha⟩ := lowerStr_shape hkey
    have hblock := @findallDur_block (natChars n) [] u (renderPairs qs)
      (natChars_ne_nil n) (natChars_digits n)
      (by intro x hx; cases hx) hune hualpha (renderPairs_head_digit qs)
    have heq : renderPairs ((n, u) :: qs) = natChars n ++ [] ++ u ++ renderPairs qs := by
      simp [renderPairs]
    rw [heq, hblock, ih fun p hp => hall p (List.mem_cons_of_mem _ hp)]
    rfl

lemma durationKwargs_sum : ∀ (ps : List (Nat × Str)) (kw : Kwargs),
    (∀ p ∈ ps, (unit_map (lowerStr p.2)).isSome = true) →
    durationKwargs kw (ps.map fun p => (natChars p.1, p.2)) =
      .ok (sumKwargs kw ps) := by
  intro ps
  induction ps with
  | nil => intro kw _; rfl
  | cons q qs ih =>
    intro kw hall
    obtain ⟨n, u⟩ := q
    have hk := hall (n, u) (List.mem_cons_self _ _)
    obtain ⟨key, hkey⟩ := Option.isSome_iff_exists.mp hk
    simp only [List.map_cons, durationKwargs, sumKwargs, hkey,
      parseNatChars_natChars]
    exact ih _ fun p hp => hall p (List.mem_cons_of_mem _ hp)

lemma kwZero_add_get_self (key : UnitKey) (v : Nat) :
    (kwZero.add key v).get key = v := by
  cases key <;> simp [kwZero, Kwargs.add, Kwargs.get]

lemma kwZero_add_get_ne (key k : UnitKey) (v : Nat) (h : k ≠ key) :
    (kwZero.add key v).get k = 0 := by
  cases key <;> cases k <;> first
    | exact absurd rfl h
    | simp [kwZero, Kwargs.add, Kwargs.get]

/-!
## Claim theorems
-/

/-- C1: the claim says `evaluate("today - today")` succeeds with a zero
duration formatted `"0 seconds"`.  The formatter would indeed print
`"0 seconds"` for a zero duration, but the evaluation itself raises: the
final `check_condition(result, "No operands found")` sees the falsy
`timedelta(0)` and reports `NoOperandsFound`, under every clock. -/
theorem c1_today_minus_today (clock : Clock) :
    evaluate_expression clock "today - today".toList = .error Err.NoOperandsFound ∧
    format_timedelta 0 = "0 seconds" := by
  constructor
  · unfold evaluate_expression
    have hloop : evalLoop clock none none (tokenize "today - today".toList) =
        .ok (some (.dur (clock.today - clock.today)), none) := rfl
    rw [hloop]
    show evalFinish (some (.dur (clock.today - clock.today)), none) = _
    simp [evalFinish, sub_self]
  · rfl

/-- C1 witness: the theorem instantiated at the fixed clock. -/
theorem c1_today_minus_today_witness :
    evaluate_expression clock0 "today - today".toList = .error Err.NoOperandsFound :=
  (c1_today_minus_today clock0).1

/-- C3 counterexample: the claim's example says a duration of minus 90
minutes renders as `"-1 hour, 30 minutes"`.  It actually renders as
`"-1 day, 22 hours, 30 minutes"`: `td.days` is the floor-division day
count (minus 1, shown unsigned) while hours/minutes come from the
nonnegative remainder `total_seconds % 86400`; the expression
`"1h - 2h 30m"` reaches that value. -/
theorem c3_counterexample :
    format_timedelta (-5400) = "-1 day, 22 hours, 30 minutes" ∧
    format_timedelta (-5400) ≠ "-1 hour, 30 minutes" ∧
    evaluate_expression clock0 "1h - 2h 30m".toList = .ok (.dur (-5400)) := by
  refine ⟨rfl, by decide, rfl⟩

/-- A negative total duration always renders with a leading `-`: the
floor-division day count is nonzero, so the parts list is nonempty and the
sign prefix applies. -/
lemma format_timedelta_neg {td : Int} (h : td < 0) :
    ∃ s : String, format_timedelta td = "-" ++ s := by
  have hdays : td.fdiv 86400 ≠ 0 := by
    rw [Int.fdiv_eq_ediv _ (by omega)]
    show td / 86400 ≠ 0
    omega
  apply Exists.intro
  simp only [format_timedelta]
  rw [if_neg (by simp [hdays]), if_pos h]

/-- C3 (amended): the formatter's components are exactly the divmod
decomposition the source computes — `td.days` by floor division times
86400 plus the nonnegative remainder reconstructs the total, and the
hours/minutes/seconds of the remainder are in range and reconstruct it —
an all-zero decomposition renders `"0 seconds"`, a negative total gets a
single leading `-` with components printed unsigned, and minus 90 minutes
renders `"-1 day, 22 hours, 30 minutes"` (not `"-1 hour, 30 minutes"`:
the day count is the floor, the rest comes from the nonnegative
remainder). -/
theorem c3_formatter_decomposition :
    (∀ td : Int,
      td.fdiv 86400 * 86400 + td.emod 86400 = td ∧
      (td.emod 86400).toNat / 3600 * 3600 + (td.emod 86400).toNat % 3600 / 60 * 60 +
        (td.emod 86400).toNat % 3600 % 60 = (td.emod 86400).toNat ∧
      (td.emod 86400).toNat / 3600 ≤ 23 ∧
      (td.emod 86400).toNat % 3600 / 60 ≤ 59 ∧
      (td.emod 86400).toNat % 3600 % 60 ≤ 59) ∧
    format_timedelta 0 = "0 seconds" ∧
    (∀ td : Int, td < 0 → ∃ s : String, format_timedelta td = "-" ++ s) ∧
    format_timedelta (86400 + 7200 + 180 + 4) = "1 day, 2 hours, 3 minutes, 4 seconds" ∧
    format_timedelta (-5400) = "-1 day, 22 hours, 30 minutes" := by
  refine ⟨?_, rfl, fun td h => format_timedelta_neg h, rfl, rfl⟩
  intro td
  have h1 : td.fdiv 86400 * 86400 + td.emod 86400 = td := by
    rw [Int.fdiv_eq_ediv _ (by omega)]
    show td / 86400 * 86400 + td % 86400 = td
    omega
  have h2 : (td.emod 86400).toNat < 86400 := by
    show (td % 86400).toNat < 86400
    omega
  exact ⟨h1, by omega, by omega, by omega, by omega⟩

/-- C3 witness: the negative-prefix clause applied at minus 90 minutes. -/
theorem c3_formatter_decomposition_witness :
    ∃ s : String, format_timedelta (-5400) = "-" ++ s :=
  c3_formatter_decomposition.2.2.1 (-5400) (by decide)

/-- C4 counterexample: the claim says a `+`/`-` is an operator token only
when surrounded by whitespace on both sides.  In `"3d +2d"` the `+` has
whitespace on the left only, yet the tokenizer splits it out as an
operator and the whole expression evaluates to 5 days. -/
theorem c4_counterexample :
    tokenize "3d +2d".toList = ["3d".toList, "+".toList, "2d".toList] ∧
    evaluate_expression clock0 "3d +2d".toList = .ok (.dur 432000) := ⟨rfl, rfl⟩

/-- C4 (amended): the tokenizer regex `\s+([+-])` splits a `+`/`-` out as
an operator exactly when it is immediately preceded by at least one
whitespace character, regardless of what follows it: a string with no
whitespace-preceded sign stays one piece, and the first
whitespace-preceded sign is emitted as its own piece with the whitespace
run before it removed. -/
theorem c4_operator_iff_space_before :
    (∀ s : Str, noWsSign s = true → re_split s = [s]) ∧
    (∀ (a w b : Str) (c : Char), noWsSign a = true →
      (∀ x, a.getLast? = some x → isSpaceC x = false) →
      (∀ x ∈ w, isSpaceC x = true) → w ≠ [] → isSignC c = true →
      re_split (a ++ w ++ c :: b) = a :: [c] :: re_split b) :=
  ⟨fun _ h => re_split_nosplit h,
   fun _ _ _ _ h1 h2 h3 h4 h5 => re_split_split h1 h2 h3 h4 h5⟩

/-- C4 witness: applying both clauses at concrete strings: `"3d+2d"` is
not split (no whitespace before the sign), while `"3d +2d"` is. -/
theorem c4_operator_iff_space_before_witness :
    re_split "3d+2d".toList = ["3d+2d".toList] ∧
    re_split "3d +2d".toList = ["3d".toList, "+".toList, "2d".toList] :=
  ⟨c4_operator_iff_space_before.1 "3d+2d".toList (by decide),
   c4_operator_iff_space_before.2 "3d".toList [' '] "2d".toList '+'
     (by decide) (by decide) (by decide) (by decide) (by decide)⟩

lemma parse_duration_plus : parse_duration ['+'] = .ok none := rfl

lemma parse_duration_minus : parse_duration ['-'] = .ok none := rfl

/-- C5 counterexample: the claim says arithmetic between an instant and a
duration always yields an instant.  It does not: shifting an instant by a
duration that leaves `datetime`'s supported range (years 1-9999) raises
`OverflowError` instead — `timedelta(days=900000000)` parses fine, but
both `"900000000d + 2024-01-01"` (Duration accumulator plus Instant
operand) and `"2024-01-01 + 900000000d"` (Instant accumulator plus
Duration operand) raise instead of yielding an instant. -/
theorem c5_counterexample :
    parse_duration "900000000d".toList = .ok (some 77760000000000) ∧
    evaluate_expression clock0 "900000000d + 2024-01-01".toList = .error .Overflow ∧
    evaluate_expression clock0 "2024-01-01 + 900000000d".toList = .error .Overflow :=
  ⟨rfl, rfl, rfl⟩

/-- C5 (amended): the evaluator's type rules for an Instant operand
(lines 148-154): with an Instant accumulator only `-` is allowed (`+`
fails `CannotAddTwoDates`) and the accumulator becomes the difference as
a Duration (the difference of two valid datetimes is at most about 3.65
million days, far inside `timedelta`'s range, so that subtraction cannot
overflow); with a Duration accumulator only `+` is allowed (`-` fails
`CannotSubtractDateFromDuration`) and the accumulator becomes the shifted
instant when the shift stays within `datetime`'s range, and raises
`OverflowError` otherwise; likewise a Duration operand applied to an
Instant accumulator (lines 132-139) yields the shifted Instant when in
range and raises `OverflowError` otherwise. -/
theorem c5_type_rules (clock : Clock) (a b d : Int) (tok : Str)
    (hne : tok ≠ ['+'] ∧ tok ≠ ['-'])
    (hdur : parse_duration tok = .ok none)
    (hdt : parse_datetime_safe clock tok = some b) :
    (evalStep clock (some (.dt a)) (some ['+']) tok = .err .CannotAddTwoDates) ∧
    (evalStep clock (some (.dt a)) (some ['-']) tok = .cont (some (.dur (a - b))) none) ∧
    (evalStep clock (some (.dur d)) (some ['-']) tok =
       .err .CannotSubtractDateFromDuration) ∧
    (dtInRange (d + b) = true →
      evalStep clock (some (.dur d)) (some ['+']) tok = .cont (some (.dt (d + b))) none) ∧
    (dtInRange (d + b) = false →
      evalStep clock (some (.dur d)) (some ['+']) tok = .err .Overflow) ∧
    (∀ (dtok : Str) (dv : Int), parse_duration dtok = .ok (some dv) → dv ≠ 0 →
      (dtInRange (a + dv) = true →
        evalStep clock (some (.dt a)) (some ['+']) dtok =
          .cont (some (.dt (a + dv))) none) ∧
      (dtInRange (a - dv) = true →
        evalStep clock (some (.dt a)) (some ['-']) dtok =
          .cont (some (.dt (a - dv))) none) ∧
      (dtInRange (a + dv) = false →
        evalStep clock (some (.dt a)) (some ['+']) dtok = .err .Overflow)) := by
  have hmain : ∀ (res : Option Value) (op : Option Str) (P : StepOut → Prop),
      (P (match parse_datetime_safe clock tok with
        | none => .err (.UnparseableToken tok)
        | some t =>
          match res with
          | none => .cont (some (.dt t)) op
          | some acc =>
            match op with
            | none => .err .MissingOperator
            | some o =>
              match acc with
              | .dt a2 =>
                if o = ['-'] then .cont (some (.dur (a2 - t))) none
                else .err .CannotAddTwoDates
              | .dur dd2 =>
                if o = ['+'] then
                  if dtInRange (dd2 + t) then .cont (some (.dt (dd2 + t))) none
                  else .err .Overflow
                else .err .CannotSubtractDateFromDuration)) →
      P (evalStep clock res op tok) := by
    intro res op P hP
    unfold evalStep
    rw [if_neg (by simp [hne.1, hne.2]), hdur]
    exact hP
  refine ⟨?_, ?_, ?_, ?_, ?_, ?_⟩
  · exact hmain _ _ (fun s => s = .err .CannotAddTwoDates) (by simp [hdt])
  · exact hmain _ _ (fun s => s = .cont (some (.dur (a - b))) none) (by simp [hdt])
  · exact hmain _ _ (fun s => s = .err .CannotSubtractDateFromDuration) (by simp [hdt])
  · intro hr
    exact hmain _ _ (fun s => s = .cont (some (.dt (d + b))) none) (by simp [hdt, hr])
  · intro hr
    exact hmain _ _ (fun s => s = .err .Overflow) (by simp [hdt, hr])
  · intro dtok dv hd hnz
    have hdne : dtok ≠ ['+'] ∧ dtok ≠ ['-'] := by
      constructor
      · rintro rfl
        have h2 : (Except.ok none : Except Err (Option Int)) = .ok (some dv) := hd
        simp at h2
      · rintro rfl
        have h2 : (Except.ok none : Except Err (Option Int)) = .ok (some dv) := hd
        simp at h2
    refine ⟨?_, ?_, ?_⟩
    · intro hr
      unfold evalStep
      rw [if_neg (by simp [hdne.1, hdne.2]), hd]
      simp [truthyDur, hnz, hr]
    · intro hr
      unfold evalStep
      rw [if_neg (by simp [hdne.1, hdne.2]), hd]
      simp [truthyDur, hnz, hr]
    · intro hr
      unfold evalStep
      rw [if_neg (by simp [hdne.1, hdne.2]), hd]
      simp [truthyDur, hnz, hr]

/-- C5 witness: both instant-instant failures and an in-range duration
shift at a concrete datetime token (`2024-01-01` is 1704067200 epoch
seconds in the model). -/
theorem c5_type_rules_witness :
    evalStep clock0 (some (.dt 0)) (some ['+']) "2024-01-01".toList =
      .err .CannotAddTwoDates ∧
    evalStep clock0 (some (.dur 5)) (some ['-']) "2024-01-01".toList =
      .err .CannotSubtractDateFromDuration ∧
    evalStep clock0 (some (.dur 5)) (some ['+']) "2024-01-01".toList =
      .cont (some (.dt (5 + 1704067200))) none :=
  ⟨(c5_type_rules clock0 0 1704067200 5 "2024-01-01".toList
      (by decide) (by rfl) (by rfl)).1,
   (c5_type_rules clock0 0 1704067200 5 "2024-01-01".toList
      (by decide) (by rfl) (by rfl)).2.2.1,
   (c5_type_rules clock0 0 1704067200 5 "2024-01-01".toList
      (by decide) (by rfl) (by rfl)).2.2.2.1 (by decide)⟩

/-- C6: the pending-operator protocol.  An operator token while one is
already pending raises `ConsecutiveOperators` (so `"3d + + 2d"` fails that
way); a pending operator at end of input raises `TrailingOperator` (so
`"3d +"` fails that way); and an input with no operand tokens, such as the
empty string, raises `NoOperandsFound`. -/
theorem c6_operator_protocol :
    (∀ (clock : Clock) (res : Option Value) (o t : Str),
      t = ['+'] ∨ t = ['-'] →
      evalStep clock res (some o) t = .err .ConsecutiveOperators) ∧
    (∀ (res : Option Value) (o : Str),
      evalFinish (res, some o) = .error .TrailingOperator) ∧
    evalFinish (none, none) = .error .NoOperandsFound ∧
    (∀ clock : Clock,
      evaluate_expression clock "3d + + 2d".toList = .error .ConsecutiveOperators) ∧
    (∀ clock : Clock,
      evaluate_expression clock "3d +".toList = .error .TrailingOperator) ∧
    (∀ clock : Clock,
      evaluate_expression clock "".toList = .error .NoOperandsFound) := by
  refine ⟨?_, ?_, rfl, ?_, ?_, ?_⟩
  · intro clock res o t h
    unfold evalStep
    rw [if_pos h]
  · intro res o
    rfl
  · intro clock
    rfl
  · intro clock
    rfl
  · intro clock
    rfl

/-- C6 witness: the general clauses applied at a concrete state and
operator token. -/
theorem c6_operator_protocol_witness :
    evalStep clock0 (some (.dur 259200)) (some "+".toList) "+".toList =
      .err .ConsecutiveOperators ∧
    evalFinish (some (.dur 259200), some "+".toList) = .error .TrailingOperator :=
  ⟨c6_operator_protocol.1 clock0 (some (.dur 259200)) "+".toList "+".toList
     (Or.inl rfl),
   c6_operator_protocol.2.1 (some (.dur 259200)) "+".toList⟩

/-- C7: a token that the duration parser maps to a zero duration is not
classified as a duration by the evaluator: `if dur:` is false for
`timedelta(0)`, so the token falls through to datetime parsing, and if
that fails too the whole evaluation fails with `UnparseableToken`,
even though `parse_duration` succeeded; concretely so for `"0d"` and
`"0 seconds"`. -/
theorem c7_zero_duration_falls_through :
    (∀ (clock : Clock) (e tok : Str), tokenize e = [tok] →
      parse_duration tok = .ok (some 0) →
      parse_datetime_safe clock tok = none →
      evaluate_expression clock e = .error (.UnparseableToken tok)) ∧
    (∀ clock : Clock,
      evaluate_expression clock "0d".toList = .error (.UnparseableToken "0d".toList)) ∧
    (∀ clock : Clock,
      evaluate_expression clock "0 seconds".toList =
        .error (.UnparseableToken "0 seconds".toList)) := by
  refine ⟨?_, fun clock => rfl, fun clock => rfl⟩
  intro clock e tok h1 h2 h3
  have hne : tok ≠ ['+'] ∧ tok ≠ ['-'] := by
    constructor
    · rintro rfl
      have h2' : (Except.ok none : Except Err (Option Int)) = .ok (some 0) := h2
      simp at h2'
    · rintro rfl
      have h2' : (Except.ok none : Except Err (Option Int)) = .ok (some 0) := h2
      simp at h2'
  have hstep : evalStep clock none none tok = .err (.UnparseableToken tok) := by
    unfold evalStep
    rw [if_neg (by simp [hne.1, hne.2]), h2]
    simp [truthyDur, h3]
  unfold evaluate_expression
  rw [h1]
  show (match evalLoop clock none none [tok] with
    | Except.error e => Except.error e
    | Except.ok st => evalFinish st) = _
  rw [evalLoop, hstep]

/-- C7 witness: the general clause applied at the token `"0d"` and the
fixed clock. -/
theorem c7_zero_duration_falls_through_witness :
    evaluate_expression clock0 "0d".toList = .error (.UnparseableToken "0d".toList) :=
  c7_zero_duration_falls_through.1 clock0 "0d".toList "0d".toList rfl rfl rfl

/-- C8 counterexample: the claim asserts success for every integer
n ≥ 0, but `timedelta(**kwargs)` raises `OverflowError` when the day
count exceeds 999,999,999: parsing `"1000000000d"` raises instead of
yielding a duration, while `"999999999d"` (the last representable day
count) still succeeds. -/
theorem c8_counterexample :
    parse_duration "1000000000d".toList = .error .Overflow ∧
    parse_duration "999999999d".toList = .ok (some (999999999 * 86400)) :=
  ⟨rfl, rfl⟩

/-- C8 (amended): for every recognised unit alias (case-insensitive) and
every integer n ≥ 0, the findall pass on the token made of n's decimal
digits, optional whitespace, and the alias finds exactly that pair, the
kwargs component for the normalised unit equals n — multiplied by 7 into
days for the week aliases (the `unit.lower().startswith("w")` test), all
other components zero — and `parse_duration` returns exactly what
`timedelta(**kwargs)` produces: the duration when the total stays within
`timedelta`'s ±999,999,999-day range, and `OverflowError` beyond it.  A
token made of several concatenated pairs is likewise summed per
normalised unit and handed to `timedelta(**kwargs)`. -/
theorem c8_unit_alias_parsing :
    (∀ (n : Nat) (w U : Str) (key : UnitKey),
      (∀ c ∈ w, isSpaceC c = true) →
      unit_map (lowerStr U) = some key →
      ∃ kw, durationKwargs kwZero (findallDur (natChars n ++ w ++ U)) = .ok kw ∧
        parse_duration (natChars n ++ w ++ U) = (timedeltaOf kw).map some ∧
        kw.get key = (if key = UnitKey.days ∧ (lowerStr U).head? = some 'w'
                      then n * 7 else n) ∧
        ∀ k, k ≠ key → kw.get k = 0) ∧
    (∀ ps : List (Nat × Str), ps ≠ [] →
      (∀ p ∈ ps, (unit_map (lowerStr p.2)).isSome = true) →
      parse_duration (renderPairs ps) =
        (timedeltaOf (sumKwargs kwZero ps)).map some) := by
  constructor
  · intro n w U key hw hkey
    obtain ⟨hune, hualpha⟩ := lowerStr_shape hkey
    have hfind : findallDur (natChars n ++ w ++ U) = [(natChars n, U)] := by
      have hblock := @findallDur_block (natChars n) w U []
        (natChars_ne_nil n) (natChars_digits n) hw hune hualpha
        (by intro c hc; cases hc)
      have heq : natChars n ++ w ++ U = natChars n ++ w ++ U ++ [] := by simp
      rw [heq, hblock]
      rfl
    set val := (if key = UnitKey.days ∧ (lowerStr U).head? = some 'w'
                then parseNatChars (natChars n) * 7 else parseNatChars (natChars n)) with hv
    have hkw : durationKwargs kwZero [(natChars n, U)] = .ok (kwZero.add key val) := by
      simp only [durationKwargs, hkey, ← hv]
    refine ⟨kwZero.add key val, by rw [hfind, hkw], ?_, ?_, ?_⟩
    · unfold parse_duration
      rw [hfind]
      simp only [List.cons_ne_self, if_neg]
      rw [hkw]
      cases htd : timedeltaOf (kwZero.add key val) with
      | error e => simp [htd, Except.map]
      | ok td => simp [htd, Except.map]
    · rw [kwZero_add_get_self, hv, parseNatChars_natChars]
    · intro k hk
      exact kwZero_add_get_ne key k val hk
  · intro ps hne hall
    have hmapne : ps.map (fun p => (natChars p.1, p.2)) ≠ [] := by
      simpa using hne
    unfold parse_duration
    rw [findallDur_renderPairs ps hall]
    rw [if_neg hmapne, durationKwargs_sum ps kwZero hall]
    cases htd : timedeltaOf (sumKwargs kwZero ps) with
    | error e => simp [htd, Except.map]
    | ok td => simp [htd, Except.map]

/-- C8 witness: the single-pair clause applied at n = 3 and the alias
`"W"` (uppercase, a week alias, expanded into 21 days). -/
theorem c8_unit_alias_parsing_witness :
    ∃ kw, durationKwargs kwZero (findallDur (natChars 3 ++ [] ++ "W".toList)) = .ok kw ∧
      parse_duration (natChars 3 ++ [] ++ "W".toList) = (timedeltaOf kw).map some ∧
      kw.get UnitKey.days = (if UnitKey.days = UnitKey.days ∧
        (lowerStr "W".toList).head? = some 'w' then 3 * 7 else 3) ∧
      ∀ k, k ≠ UnitKey.days → kw.get k = 0 :=
  c8_unit_alias_parsing.1 3 [] "W".toList UnitKey.days (by decide) (by decide)

/-- C9: once the findall pattern matches at least one pair in a token, an
unrecognised unit makes `parse_duration` raise `UnsupportedUnit` naming
the (first) unrecognised unit instead of falling through to datetime
parsing; concretely `"5xyz"` fails with `UnsupportedUnit("xyz")`, and so
does the whole evaluation. -/
theorem c9_unsupported_unit :
    (∀ tok : Str, findallDur tok ≠ [] →
      (∃ p ∈ findallDur tok, unit_map (lowerStr p.2) = none) →
      ∃ p ∈ findallDur tok, unit_map (lowerStr p.2) = none ∧
        parse_duration tok = .error (.UnsupportedUnit p.2)) ∧
    parse_duration "5xyz".toList = .error (.UnsupportedUnit "xyz".toList) ∧
    (∀ clock : Clock,
      evaluate_expression clock "5xyz".toList =
        .error (.UnsupportedUnit "xyz".toList)) := by
  refine ⟨?_, rfl, fun clock => rfl⟩
  intro tok h1 h2
  obtain ⟨p, hp, hbad, heq⟩ := durationKwargs_firstBad (findallDur tok) kwZero h2
  refine ⟨p, hp, hbad, ?_⟩
  unfold parse_duration
  rw [if_neg h1, heq]

/-- C9 witness: the general clause applied at the token `"5xyz"`. -/
theorem c9_unsupported_unit_witness :
    ∃ p ∈ findallDur "5xyz".toList, unit_map (lowerStr p.2) = none ∧
      parse_duration "5xyz".toList = .error (.UnsupportedUnit p.2) :=
  c9_unsupported_unit.1 "5xyz".toList (by decide)
    ⟨("5".toList, "xyz".toList), by decide, by decide⟩

/-- C10 counterexample: the claim quantifies over every Duration D and
every Instant A, but the round trip can fail in two ways.  For the zero
duration it does not even start: `"0s"` is a duration token mapping to
`timedelta(0)`, which the evaluator discards (C7), so
`evaluate("2024-01-01 + 0s")` fails with `UnparseableToken`.  And when the
shifted instant leaves `datetime`'s range, `result + dur` raises
`OverflowError`: `evaluate("9999-12-31 + 1d")` raises instead of
recovering anything. -/
theorem c10_counterexample :
    parse_duration "0s".toList = .ok (some 0) ∧
    evaluate_expression clock0 "2024-01-01 + 0s".toList =
      .error (.UnparseableToken "0s".toList) ∧
    evaluate_expression clock0 "9999-12-31 + 1d".toList = .error .Overflow :=
  ⟨rfl, rfl, rfl⟩

/-- C10 (amended): for every Instant A and every nonzero Duration D whose
shifted instant A + D stays within `datetime`'s supported range (years
1-9999), evaluating `"A + D"` yields the instant shifted by D, and
subtracting D from the result recovers A exactly. -/
theorem c10_add_sub_roundtrip (clock : Clock) (e atok dtok : Str) (a d : Int)
    (htok : tokenize e = [atok, ['+'], dtok])
    (hane : atok ≠ ['+'] ∧ atok ≠ ['-'])
    (hadur : parse_duration atok = .ok none)
    (hadt : parse_datetime_safe clock atok = some a)
    (hddur : parse_duration dtok = .ok (some d))
    (hdnz : d ≠ 0)
    (hrange : dtInRange (a + d) = true) :
    evaluate_expression clock e = .ok (.dt (a + d)) ∧ (a + d) - d = a := by
  refine ⟨?_, by omega⟩
  have hdne : dtok ≠ ['+'] ∧ dtok ≠ ['-'] := by
    constructor
    · rintro rfl
      have h2 : (Except.ok none : Except Err (Option Int)) = .ok (some d) := hddur
      simp at h2
    · rintro rfl
      have h2 : (Except.ok none : Except Err (Option Int)) = .ok (some d) := hddur
      simp at h2
  have hstep1 : evalStep clock none none atok = .cont (some (.dt a)) none := by
    unfold evalStep
    rw [if_neg (by simp [hane.1, hane.2]), hadur]
    simp [truthyDur, hadt]
  have hstep2 : evalStep clock (some (.dt a)) none ['+'] =
      .cont (some (.dt a)) (some ['+']) := by
    unfold evalStep
    rw [if_pos (Or.inl rfl)]
  have hstep3 : evalStep clock (some (.dt a)) (some ['+']) dtok =
      .cont (some (.dt (a + d))) none := by
    unfold evalStep
    rw [if_neg (by simp [hdne.1, hdne.2]), hddur]
    simp [truthyDur, hdnz, hrange]
  unfold evaluate_expression
  rw [htok]
  show (match evalLoop clock none none [atok, ['+'], dtok] with
    | Except.error e => Except.error e
    | Except.ok st => evalFinish st) = _
  rw [evalLoop, hstep1]
  show (match evalLoop clock (some (.dt a)) none [['+'], dtok] with
    | Except.error e => Except.error e
    | Except.ok st => evalFinish st) = _
  rw [evalLoop, hstep2]
  show (match evalLoop clock (some (.dt a)) (some ['+']) [dtok] with
    | Except.error e => Except.error e
    | Except.ok st => evalFinish st) = _
  rw [evalLoop, hstep3]
  rfl

/-- C10 witness: the round trip at `"2024-01-01 + 3h"` under the fixed
clock: the result is the instant three hours after 2024-01-01 midnight,
and subtracting the duration recovers the instant. -/
theorem c10_add_sub_roundtrip_witness :
    evaluate_expression clock0 "2024-01-01 + 3h".toList =
      .ok (.dt (1704067200 + 10800)) ∧ (1704067200 + 10800 : Int) - 10800 = 1704067200 :=
  c10_add_sub_roundtrip clock0 "2024-01-01 + 3h".toList "2024-01-01".toList
    "3h".toList 1704067200 10800 rfl (by decide) rfl rfl rfl (by decide) (by decide)

/-- C2 counterexample: the claim includes the 12-hour AM/PM suffixes, but
the token `"2024-01-01 11:30 PM"` — a strict full match of the fourth
combination, `%Y-%m-%d %I:%M %p` — is not reported as "not a duration":
the findall pattern matches the pair `("30", "PM")` inside it, `PM` is not
a recognised unit, and `parse_duration` raises `UnsupportedUnit("PM")`, so
evaluation fails instead of classifying the token as an Instant. -/
theorem c2_counterexample :
    (comboResult DateFmt.iso TimeFmt.IMp "2024-01-01 11:30 PM".toList).isSome = true ∧
    parse_duration "2024-01-01 11:30 PM".toList =
      .error (.UnsupportedUnit "PM".toList) ∧
    evaluate_expression clock0 "2024-01-01 11:30 PM".toList =
      .error (.UnsupportedUnit "PM".toList) := ⟨rfl, rfl, rfl⟩

/-- C2 (amended): for every operand token that strictly matches one of the
21 date-format combinations whose time suffix is empty, `HH:MM` or
`HH:MM:SS` (i.e. without an AM/PM part), the Duration Parser reports "not
a duration" (`ok none`), so the evaluator falls through to the Datetime
Parser, which succeeds — the token is classified as an Instant. -/
theorem c2_instant_classification (clock : Clock) (df : DateFmt) (tf : TimeFmt)
    (tok : Str) (h1 : tf ≠ TimeFmt.IMp) (h2 : tf ≠ TimeFmt.IMSp)
    (hm : (comboResult df tf tok).isSome = true) :
    parse_duration tok = .ok none ∧
    (parse_datetime_safe clock tok).isSome = true := by
  constructor
  · unfold comboResult at hm
    obtain ⟨pr, hpr, hsome⟩ := exists_of_findSome?_isSome hm
    have hfull : pr.2 = [] := by
      by_cases hc : pr.2 = [] ∧ validDT pr.1.1 pr.1.2 = true
      · exact hc.1
      · rw [if_neg hc] at hsome
        cases hsome
    obtain ⟨a, b, htok, ha, hb⟩ := comboParses_shape h1 h2 hpr hfull
    rw [htok]
    exact parse_duration_ok_none (findallDur_nil_split a b ha hb)
  · unfold parse_datetime_safe
    by_cases ht : lowerStr tok = "today".toList
    · rw [if_pos ht]
      rfl
    · rw [if_neg ht]
      by_cases hn : lowerStr tok = "now".toList
      · rw [if_pos hn]
        rfl
      · rw [if_neg hn]
        exact findSome?_isSome_of_mem (combos_mem df tf) hm

/-- C2 witness: the amended claim at the token `"2024-01-01 10:30"`, a
strict match of `%Y-%m-%d %H:%M`. -/
theorem c2_instant_classification_witness :
    parse_duration "2024-01-01 10:30".toList = .ok none ∧
    (parse_datetime_safe clock0 "2024-01-01 10:30".toList).isSome = true :=
  c2_instant_classification clock0 DateFmt.iso TimeFmt.HM
    "2024-01-01 10:30".toList (by decide) (by decide) rfl
